import Mathlib

/-!
Verification of `scripts/synchronize-documentation.js` (and the older copy of the
same script) from the opentelemetry-configuration documentation-synchronization
tool.

The script's core operation is `DocUpdater.updateSection`, which replaces the text
between `<!-- BEGIN ... -->` / `<!-- END ... -->` marker comments using the
JavaScript regular expression

  `<!-- BEGIN ${markerPrefix}: ${markerId}(?:\s+SOURCE:\s+[\w-]+)? -->[\s\S]*?<!-- END ${markerPrefix}: ${markerId}(?:\s+SOURCE:\s+[\w-]+)? -->`

with the `g` flag, via `pattern.test(content)` and
`content.replace(pattern, replacement)`.

The embedding models the semantics of this concrete regex and of
`String.prototype.replace` on it, faithfully to ECMA-262:

* `\s` and `[\w-]` are the ECMAScript character classes (`jsWhitespace`,
  `jsWordDash`);
* the optional group `(?:\s+SOURCE:\s+[\w-]+)?` is tried group-first, as regex
  alternation does (`matchTail`).  In this pattern every `\s+` is immediately
  followed by a literal starting with a non-whitespace character and every
  `[\w-]+` by a literal starting with a non-word character, so the greedy
  quantifiers always consume their maximal runs and never backtrack to shorter
  ones; the embedding therefore matches them by `dropWhile`;
* `[\s\S]*?` is lazy: the end marker is searched at the nearest following
  position (`findEndFrom`);
* a global replace substitutes the leftmost non-overlapping matches, scanning
  left to right (`scanGo`, `buildResult`); all matches of this pattern are
  nonempty, so the empty-match advance rule of `Symbol.replace` never fires;
* the replacement string undergoes ECMA-262 `GetSubstitution`: the escapes `$$`,
  `$&`, a dollar followed by a backquote, and a dollar followed by a quote are
  expanded; since the pattern has no capture groups and no named groups, `$n`
  and `$<` remain literal text (`getSubstitution`).

The interpolated `markerPrefix` and `markerId` are modelled as matched literally
(the marker ids the tool passes, `language-implementation-status` and `types`,
contain no regex metacharacters).

File-system effects of `updateFile` are modelled by passing the file system as an
explicit partial map from paths to contents.

The schema/language-implementation inputs of the two generator functions are read
by `readSourceTypesByType`, `readAndFixLanguageImplementations`,
`KNOWN_LANGUAGES`, `isExperimentalType` and `isExperimentalProperty`, all imported
from modules that are not part of this repository snapshot; those inputs are
modelled from the spec as explicit parameters (see the `Modelled from the spec:`
comments below).
-/

/-- Character class of the ECMAScript regex escape `\s`: WhiteSpace and
LineTerminator code points (ECMA-262). -/
def jsWhitespace (c : Char) : Bool :=
  c.toNat = 32 || c.toNat = 9 || c.toNat = 10 || c.toNat = 13 || c.toNat = 11 ||
  c.toNat = 12 || c.toNat = 0xa0 || c.toNat = 0x1680 ||
  (0x2000 ≤ c.toNat && c.toNat ≤ 0x200a) || c.toNat = 0x2028 || c.toNat = 0x2029 ||
  c.toNat = 0x202f || c.toNat = 0x205f || c.toNat = 0x3000 || c.toNat = 0xfeff

/-- Character class of the ECMAScript regex class `[\w-]`: word characters
`[A-Za-z0-9_]` plus the literal hyphen. -/
def jsWordDash (c : Char) : Bool :=
  (97 ≤ c.toNat && c.toNat ≤ 122) || (65 ≤ c.toNat && c.toNat ≤ 90) ||
  (48 ≤ c.toNat && c.toNat ≤ 57) || c.toNat = 95 || c.toNat = 45

/-- Match a literal character sequence at the head of the input; on success
return the rest of the input. -/
def matchLit : List Char → List Char → Option (List Char)
  | [], s => some s
  | _ :: _, [] => none
  | c :: cs, d :: ds => if c = d then matchLit cs ds else none

/-- Match the regex piece `\s+` at the head of the input.  In the marker pattern
every `\s+` is immediately followed by a literal whose first character is not
whitespace, so the greedy run always consumes the maximal whitespace run. -/
def matchWsPlus (s : List Char) : Option (List Char) :=
  match s with
  | [] => none
  | c :: rest => if jsWhitespace c then some (rest.dropWhile jsWhitespace) else none

/-- Match the regex piece `[\w-]+` at the head of the input.  In the marker
pattern it is immediately followed by the literal " -->", whose first character
is not a word character, so the greedy run always consumes the maximal run. -/
def matchWordDashPlus (s : List Char) : Option (List Char) :=
  match s with
  | [] => none
  | c :: rest => if jsWordDash c then some (rest.dropWhile jsWordDash) else none

/-- Match the tail of the marker pattern, `(?:\s+SOURCE:\s+[\w-]+)? -->`, at the
head of the input, with the regex alternation order: the variant that takes the
optional SOURCE group is tried first, the variant with the empty group second.
(The two variants of this pattern can never both match at the same position: the
group variant forces the character after the whitespace run to be `S`, the empty
variant forces it to be `-`; so committing to the first successful variant is
faithful to the backtracking engine.) -/
def matchTail (s : List Char) : Option (List Char) :=
  match (matchWsPlus s).bind (fun s1 => (matchLit "SOURCE:".data s1).bind (fun s2 =>
        (matchWsPlus s2).bind (fun s3 => (matchWordDashPlus s3).bind (fun s4 =>
        matchLit " -->".data s4)))) with
  | some r => some r
  | none => matchLit " -->".data s

/-- The literal head of the begin/end marker regex:
`<!-- KW MARKERPREFIX: MARKERID` (`KW` is `BEGIN` or `END`). -/
def markerHead (kw pref mid : String) : List Char :=
  ("<!-- " ++ kw ++ " " ++ pref ++ ": " ++ mid).data

/-- Match the begin (`kw = "BEGIN"`) or end (`kw = "END"`) marker regex at the
head of the input; on success return the rest of the input. -/
def matchMarker (kw pref mid : String) (s : List Char) : Option (List Char) :=
  (matchLit (markerHead kw pref mid) s).bind matchTail

/-- Lazy middle `[\s\S]*?` followed by the end marker: find the shortest middle
after which the end marker matches, i.e. the nearest following end marker; on
success return the rest of the input after the end marker. -/
def findEndFrom (pref mid : String) : List Char → Option (List Char)
  | [] => matchMarker "END" pref mid []
  | c :: t =>
    match matchMarker "END" pref mid (c :: t) with
    | some r => some r
    | none => findEndFrom pref mid t

/-- Match the whole pattern (begin marker, lazy middle, end marker) at the head
of the input; on success return the rest of the input after the match. -/
def matchPatternAt (pref mid : String) (s : List Char) : Option (List Char) :=
  (matchMarker "BEGIN" pref mid s).bind (findEndFrom pref mid)

/-- `RegExp.prototype.test` on a freshly constructed pattern: does the pattern
match starting at some position of the content? -/
def testPattern (pref mid : String) : List Char → Bool
  | [] => (matchPatternAt pref mid []).isSome
  | c :: t => (matchPatternAt pref mid (c :: t)).isSome || testPattern pref mid t

/-- Collect, left to right, the (position, length) pairs of the leftmost
non-overlapping matches of the pattern in the input, exactly as
`RegExp.prototype[Symbol.replace]` does with a global regex.  `pos` is the
absolute position of the head of the current suffix, and `skip` counts the
positions still covered by the previous match, which are not probed. -/
def scanGo (pref mid : String) : List Char → Nat → Nat → List (Nat × Nat)
  | [], _, _ => []
  | _ :: t, pos, skip + 1 => scanGo pref mid t (pos + 1) skip
  | c :: t, pos, 0 =>
    match matchPatternAt pref mid (c :: t) with
    | some r =>
      (pos, (c :: t).length - r.length) ::
        scanGo pref mid t (pos + 1) ((c :: t).length - r.length - 1)
    | none => scanGo pref mid t (pos + 1) 0

/-- The matches a global replace substitutes in `content`. -/
def updateMatches (pref mid : String) (content : List Char) : List (Nat × Nat) :=
  scanGo pref mid content 0 0

/-- ECMA-262 `GetSubstitution` for the replacement template of a pattern with no
capture groups: `$$` yields a dollar, `$&` the matched text, a dollar followed by
a backquote (code 96) the text before the match, a dollar followed by a quote
(code 39) the text after the match; a dollar followed by anything else — in
particular `$n` and `$<`, as the pattern has no (named) capture groups — is kept
literally. -/
def getSubstitution (matched before after : List Char) : List Char → List Char
  | [] => []
  | [c0] => [c0]
  | c0 :: c :: rest =>
    if c0 = '$' then
      if c = '$' then '$' :: getSubstitution matched before after rest
      else if c = '&' then matched ++ getSubstitution matched before after rest
      else if c = Char.ofNat 96 then before ++ getSubstitution matched before after rest
      else if c = Char.ofNat 39 then after ++ getSubstitution matched before after rest
      else '$' :: getSubstitution matched before after (c :: rest)
    else c0 :: getSubstitution matched before after (c :: rest)

/-- Assemble the result of the global replace from the collected matches, as
`RegExp.prototype[Symbol.replace]` does: the text between matches is copied from
the original, each match is replaced by the `GetSubstitution` expansion of the
replacement template.  `lastEnd` is the end position of the previous match. -/
def buildResult (orig repl : List Char) : Nat → List (Nat × Nat) → List Char
  | lastEnd, [] => orig.drop lastEnd
  | lastEnd, (pos, len) :: ms =>
    (orig.drop lastEnd).take (pos - lastEnd)
      ++ getSubstitution ((orig.drop pos).take len) (orig.take pos) (orig.drop (pos + len)) repl
      ++ buildResult orig repl (pos + len) ms

/-- `content.replace(pattern, repl)` for the global marker pattern. -/
def jsReplaceAll (pref mid : String) (repl content : List Char) : List Char :=
  buildResult content repl 0 (updateMatches pref mid content)

/-- DocUpdater - updates markdown files by replacing content between marker
comments.  `markerPref` models the JS field `markerPrefix`
(default "GENERATED"); `source` defaults to "opentelemetry-configuration". -/
structure DocUpdater where
  markerPref : String
  source : String

/-- The default-constructed updater, `new DocUpdater()`, which is also the one
`main` constructs explicitly. -/
def defaultUpdater : DocUpdater :=
  DocUpdater.mk "GENERATED" "opentelemetry-configuration"

/-- Get the begin and end marker strings for a given marker ID. -/
def DocUpdater.getMarkerPattern (u : DocUpdater) (markerId : String) : String × String :=
  ("<!-- BEGIN " ++ u.markerPref ++ ": " ++ markerId ++ " SOURCE: " ++ u.source ++ " -->",
   "<!-- END " ++ u.markerPref ++ ": " ++ markerId ++ " SOURCE: " ++ u.source ++ " -->")

/-- Update a section of content between markers.
Returns (updatedContent, wasUpdated). -/
def DocUpdater.updateSection (u : DocUpdater) (content markerId newContent : String) :
    String × Bool :=
  if testPattern u.markerPref markerId content.data then
    let replacement :=
      (u.getMarkerPattern markerId).1 ++ "\n" ++ newContent ++ "\n" ++
        (u.getMarkerPattern markerId).2
    (String.mk (jsReplaceAll u.markerPref markerId replacement.data content.data), true)
  else (content, false)

/-- File systems are modelled as partial maps from paths to file contents. -/
abbrev FileSystem : Type := String → Option String

/-- Update a file by replacing content between markers: throws if the file does
not exist, returns true if the update was successful, false if the markers were
not found (in which case nothing is written). -/
def DocUpdater.updateFile (u : DocUpdater) (fs : FileSystem) (filePath markerId newContent : String) :
    Except String (FileSystem × Bool) :=
  match fs filePath with
  | none => Except.error ("File not found: " ++ filePath)
  | some originalContent =>
    let res := u.updateSection originalContent markerId newContent
    if !res.2 then Except.ok (fs, false)
    else Except.ok (fun p => if p = filePath then some res.1 else fs p, true)

namespace OldScript

/-- DocUpdater of the older copy of the script (`src/unnamed/part_000`), whose
`updateSection` body is token-for-token the same as the current one. -/
structure DocUpdater where
  markerPref : String
  source : String

/-- Get the begin and end marker strings for a given marker ID (older copy). -/
def DocUpdater.getMarkerPattern (u : DocUpdater) (markerId : String) : String × String :=
  ("<!-- BEGIN " ++ u.markerPref ++ ": " ++ markerId ++ " SOURCE: " ++ u.source ++ " -->",
   "<!-- END " ++ u.markerPref ++ ": " ++ markerId ++ " SOURCE: " ++ u.source ++ " -->")

/-- Update a section of content between markers (older copy; the regex pattern,
the test, the replacement string and the global replace are identical to the
current script's). -/
def DocUpdater.updateSection (u : DocUpdater) (content markerId newContent : String) :
    String × Bool :=
  if testPattern u.markerPref markerId content.data then
    let replacement :=
      (u.getMarkerPattern markerId).1 ++ "\n" ++ newContent ++ "\n" ++
        (u.getMarkerPattern markerId).2
    (String.mk (jsReplaceAll u.markerPref markerId replacement.data content.data), true)
  else (content, false)

end OldScript

/-- Lexicographic order on character lists by code point. -/
def lexLe : List Char → List Char → Bool
  | [], _ => true
  | _ :: _, [] => false
  | a :: as, b :: bs => if a = b then lexLe as bs else decide (a < b)

/-- Modelled from the spec: the generators order entries with
`String.prototype.localeCompare`, whose collation depends on the host locale;
it is modelled as code-point comparison of the strings. -/
def strLe (a b : String) : Bool := lexLe a.data b.data

/-- Modelled from the spec: the JSON schema objects attached to types and
properties are produced by source-schema.js, which is not part of this
repository snapshot.  The model keeps exactly the fields the generator reads:
`description`, `required`, `isSdkExtensionPlugin`, `enumDescriptions`, and, for
`formatConstraints`, the already-`JSON.stringify`-ed value of each constraint
keyword (`none` models an absent, `undefined` or `null` entry). -/
structure JsonSchemaModel where
  description : Option String
  required : Option (List String)
  isSdkExtensionPlugin : Bool
  enumDescriptions : String → String
  constraintVal : String → Option String

/-- Modelled from the spec: a schema property record as produced by
source-schema.js (absent from the snapshot).  `defaultAndNullBehavior` is the
string `formatDefaultAndNullBehavior()` renders. -/
structure SourceSchemaProperty where
  property : String
  types : List String
  isSeq : Bool
  schema : JsonSchemaModel
  defaultAndNullBehavior : String

/-- Modelled from the spec: a schema type record as produced by
`readSourceTypesByType` in source-schema.js (absent from the snapshot), keeping
the fields and methods the generators use. -/
structure SourceSchemaType where
  type : String
  schema : JsonSchemaModel
  isEnum : Bool
  enumValues : List String
  properties : List SourceSchemaProperty

/-- Modelled from the spec: `SourceSchemaType.isEnumType` lives in
source-schema.js, absent from the snapshot; the enum-ness of a type is a field
of the model. -/
def SourceSchemaType.isEnumType (t : SourceSchemaType) : Bool := t.isEnum

/-- Modelled from the spec: `SourceSchemaType.sortedProperties` lives in
source-schema.js, absent from the snapshot; modelled as the properties sorted
ascending by property name (stable sort, localeCompare as code points). -/
def SourceSchemaType.sortedProperties (t : SourceSchemaType) : List SourceSchemaProperty :=
  t.properties.mergeSort (fun a b => strLe a.property b.property)

/-- Modelled from the spec: `SourceSchemaType.sortedEnumValues` lives in
source-schema.js, absent from the snapshot; modelled as the enum values sorted
ascending (stable sort, localeCompare as code points). -/
def SourceSchemaType.sortedEnumValues (t : SourceSchemaType) : List String :=
  t.enumValues.mergeSort strLe

/-- Modelled from the spec: a per-property support-status override from the
language implementation records of language-implementations.js (absent from the
snapshot). -/
structure PropertyOverride where
  property : String
  status : String

/-- Modelled from the spec: a per-enum-value support-status override. -/
structure EnumOverride where
  enumValue : String
  status : String

/-- Modelled from the spec: the per-type support status of one language
implementation record. -/
structure TypeSupportStatus where
  type : String
  status : String
  notes : Option String
  propertyOverrides : List PropertyOverride
  enumOverrides : List EnumOverride

/-- Modelled from the spec: one per-language implementation record, as returned
by `readAndFixLanguageImplementations`. -/
structure LanguageImplementation where
  language : String
  latestSupportedFileFormat : String
  typeSupportStatuses : List TypeSupportStatus

/-- String.prototype.trimEnd: remove trailing WhiteSpace and LineTerminator
code points. -/
def jsTrimEnd (s : List Char) : List Char := (s.reverse.dropWhile jsWhitespace).reverse

/-- The per-item support status details of one table cell: for a non-enum type,
one bullet per sorted property, taking the status of the matching property
override if one exists and the type-level status otherwise; for an enum type,
one bullet per sorted enum value, taking the matching enum-value override's
status if one exists and the type-level status otherwise. -/
def supportStatusDetails (sourceSchemaType : SourceSchemaType) (tss : TypeSupportStatus) :
    List String :=
  if !sourceSchemaType.isEnumType then
    sourceSchemaType.sortedProperties.map (fun sourceSchemaProperty =>
      let status :=
        match tss.propertyOverrides.find?
            (fun propertyOverride => propertyOverride.property == sourceSchemaProperty.property) with
        | some propertyOverride => propertyOverride.status
        | none => tss.status
      "• `" ++ sourceSchemaProperty.property ++ "`: " ++ status ++ "<br>")
  else
    sourceSchemaType.sortedEnumValues.map (fun enumValue =>
      let status :=
        match tss.enumOverrides.find? (fun enumOverride => enumOverride.enumValue == enumValue) with
        | some enumValueOverride => enumValueOverride.status
        | none => tss.status
      "• `" ++ enumValue ++ "`: " ++ status ++ "<br>")

/-- One row of the language implementation status table; errors if the type of
the support status is not in the source schema. -/
def typeRow (sourceTypes : List SourceSchemaType) (tss : TypeSupportStatus) :
    Except String String :=
  match sourceTypes.find? (fun item => item.type == tss.type) with
  | none => Except.error ("SourceSchemaType not found for type " ++ tss.type ++ ".")
  | some sourceSchemaType =>
    let formattedNotes := match tss.notes with | some n => n | none => ""
    let typeLink := "[`" ++ tss.type ++ "`](../types#" ++ tss.type.toLower ++ ")"
    Except.ok ("| " ++ typeLink ++ " | " ++ tss.status ++ " | " ++ formattedNotes ++ " | " ++
      String.join (supportStatusDetails sourceSchemaType tss) ++ " |\n")

/-- The `### language` section of the language implementation status output;
errors if the language has no implementation record, or any of its rows
errors. -/
def languageSection (sourceTypes : List SourceSchemaType)
    (languageImplementations : List LanguageImplementation) (language : String) :
    Except String String :=
  match languageImplementations.find? (fun item => item.language == language) with
  | none =>
    Except.error ("Meta schema LanguageImplementation not found for language " ++ language ++ ".")
  | some languageImplementation =>
    match languageImplementation.typeSupportStatuses.mapM (typeRow sourceTypes) with
    | Except.error e => Except.error e
    | Except.ok rows =>
      Except.ok ("### " ++ language ++ " \x7b#" ++ language ++ "\x7d\n\n" ++
        "Latest supported file format: `" ++
          languageImplementation.latestSupportedFileFormat ++ "`\n\n" ++
        "| Type | Status | Notes | Support Status Details |\n" ++
        "|---|---|---|---|\n" ++
        String.join rows ++ "\n")

/-- Generate language implementation status content.  The inputs that the script
reads through `readSourceTypesByType`, `readAndFixLanguageImplementations` and
`KNOWN_LANGUAGES` (modules absent from the snapshot) are explicit parameters:
`messages` are the problem messages of the language implementation records. -/
def generateLanguageImplementationStatus (knownLanguages : List String)
    (sourceTypes : List SourceSchemaType) (messages : List String)
    (languageImplementations : List LanguageImplementation) : Except String String :=
  if messages.length > 0 then
    Except.error
      "Language implementations have problems. Please run fix-language-implementations and try again."
  else
    match knownLanguages.mapM (languageSection sourceTypes languageImplementations) with
    | Except.error e => Except.error e
    | Except.ok tablesOutput =>
      Except.ok (String.mk (jsTrimEnd
        ("\x7b\x7b< sdk-lang-status-accordion >\x7d\x7d\n\n" ++
         "<div class=\"language-implementation-status-content\" style=\"display: none;\">\n\n" ++
         String.join tablesOutput ++ "</div>").data))

/-- String.prototype.replace with a plain string pattern: replace the first
occurrence of `pat` by `sub` (the replacement strings used by
`formatConstraints` contain no dollar, so no `GetSubstitution` escape applies). -/
def replaceFirstStr (pat sub : List Char) : List Char → List Char
  | [] => []
  | c :: t =>
    match matchLit pat (c :: t) with
    | some r => sub ++ r
    | none => c :: replaceFirstStr pat sub t

/-- The constraint keywords `formatConstraints` looks up, in source order. -/
def constraintPropertyNames : List String :=
  ["minLength", "maxLength", "pattern", "format",
   "multipleOf", "minimum", "exclusiveMinimum", "maximum", "exclusiveMaximum",
   "patternProperties", "additionalProperties", "propertyNames",
   "minProperties", "maxProperties", "required",
   "contains", "minContains", "maxContains", "uniqueItems",
   "const", "minItems", "maxItems"]

/-- Render the constraints block of a schema: one bullet per present constraint
keyword; a single bullet is unwrapped by removing the first "• " and the first
"<br>"; no bullets renders as "None.". -/
def formatConstraints (schema : JsonSchemaModel) : String :=
  let constraints := constraintPropertyNames.filterMap (fun propertyName =>
    (schema.constraintVal propertyName).map (fun v =>
      "• `" ++ propertyName ++ "`: `" ++ v ++ "`<br>"))
  match constraints with
  | [] => "None."
  | [c] => String.mk (replaceFirstStr "<br>".data [] (replaceFirstStr "• ".data [] c.data))
  | cs => String.join cs

/-- ASCII lowercasing: the ECMA-262 `Canonicalize` step relevant to the `i` flag
for the ASCII literals of the description-link pattern.  A non-ASCII input
character never matches an ASCII pattern character case-insensitively
(`Canonicalize` rejects case mappings that cross into ASCII), which the
identity on non-ASCII characters captures. -/
def asciiLower (c : Char) : Char :=
  if 65 ≤ c.toNat ∧ c.toNat ≤ 90 then Char.ofNat (c.toNat + 32) else c

/-- Case-insensitive character comparison for the ASCII literals of the
description-link pattern. -/
def ciEq (c d : Char) : Bool := asciiLower c = asciiLower d

/-- Match a literal case-insensitively at the head of the input; on success
return the rest of the input. -/
def matchLitCi : List Char → List Char → Option (List Char)
  | [], s => some s
  | _ :: _, [] => none
  | c :: cs, d :: ds => if ciEq c d then matchLitCi cs ds else none

/-- Match a literal case-insensitively at the head of the input; on success
return the consumed input characters (a capture substitutes the input text,
with its original case) and the rest of the input. -/
def matchLitCiC : List Char → List Char → Option (List Char × List Char)
  | [], s => some ([], s)
  | _ :: _, [] => none
  | c :: cs, d :: ds =>
    if ciEq c d then (matchLitCiC cs ds).map (fun p => (d :: p.1, p.2)) else none

/-- Capture group 1 of the description-link pattern, `https?:\/\/[^\s]+`: the
literal http case-insensitively, an optional s, the literal ://, then a maximal
nonempty run of non-whitespace characters.  The optional s and the greedy run
commit without backtracking: giving the s back would put an s where the pattern
requires a colon, and giving back characters of the `[^\s]+` run would put a
non-whitespace character where the following literal requires a space.  On
success return the captured input text and the rest of the input. -/
def matchUrl (s : List Char) : Option (List Char × List Char) :=
  match matchLitCiC "http".data s with
  | none => none
  | some (w1, s1) =>
    let os : List Char × List Char :=
      match s1 with
      | c :: t => if ciEq 's' c then ([c], t) else ([], s1)
      | [] => ([], s1)
    match matchLitCiC "://".data os.2 with
    | none => none
    | some (w3, s3) =>
      let run := s3.takeWhile (fun c => !jsWhitespace c)
      if run = [] then none
      else some (w1 ++ os.1 ++ w3 ++ run, s3.drop run.length)

/-- Capture group 2 of the description-link pattern, the alternation
`details|information|more information|more details`, tried left to right as
regex alternation does (at most one branch can match at a given position, the
branches differing before any is exhausted). -/
def matchAltFor (s : List Char) : Option (List Char) :=
  match matchLitCi "details".data s with
  | some r => some r
  | none =>
    match matchLitCi "information".data s with
    | some r => some r
    | none =>
      match matchLitCi "more information".data s with
      | some r => some r
      | none => matchLitCi "more details".data s

/-- The description-link pattern
`See (https?:\/\/[^\s]+) for (details|information|more information|more details)`
matched case-insensitively at the head of the input; on success return the
capture of group 1 (the URL text) and the input after the whole match. -/
def matchSeeAt (s : List Char) : Option (List Char × List Char) :=
  match matchLitCi "See ".data s with
  | none => none
  | some s1 =>
    match matchUrl s1 with
    | none => none
    | some (url, s2) =>
      match matchLitCi " for ".data s2 with
      | none => none
      | some s3 =>
        match matchAltFor s3 with
        | none => none
        | some s4 => some (url, s4)

/-- The global replace of `formatDescriptionWithLinks`: scan left to right for
the leftmost non-overlapping matches of the description-link pattern (every
match of the pattern is nonempty, so the empty-match advance rule of the
replace algorithm never fires) and substitute each by the replacement template
with `$1` expanded to the group-1 capture, per `GetSubstitution`.  `skip`
counts the positions still covered by the previous match, which are neither
probed nor copied. -/
def formatGo : List Char → Nat → List Char
  | [], _ => []
  | _ :: t, skip + 1 => formatGo t skip
  | c :: t, 0 =>
    match matchSeeAt (c :: t) with
    | some (url, rest) =>
      "([See here for more details](".data ++ url ++ "))".data ++
        formatGo t ((c :: t).length - rest.length - 1)
    | none => c :: formatGo t 0

/-- Convert "See URL for details/information/more information/more details"
phrases of a description into hyperlinked text, the case-insensitive global
regex replace of `formatDescriptionWithLinks` in
scripts/synchronize-documentation.js. -/
def formatDescriptionWithLinks (description : String) : String :=
  String.mk (formatGo description.data 0)

/-- `split("\n").join("<br>")` on the characters of a description. -/
def newlineToBr : List Char → List Char
  | [] => []
  | '\n' :: t => '<' :: 'b' :: 'r' :: '>' :: newlineToBr t
  | c :: t => c :: newlineToBr t

/-- Render the type column of a property row: an optional "`array` of " head,
then the resolved links (or plain code spans) of the property's types, in a
bulleted "one of:" list when there are several. -/
def formatPropertyType (sourceTypes : List SourceSchemaType) (p : SourceSchemaProperty) :
    String :=
  let seqPart := if p.isSeq then "`array` of " else ""
  let multi := decide (p.types.length > 1)
  let headPart := if multi then "one of:<br>" else ""
  let pre := if multi then "• " else ""
  let suf := if multi then "<br>" else ""
  seqPart ++ headPart ++ String.join (p.types.map (fun t =>
    match sourceTypes.find? (fun st => st.type == t) with
    | some resolvedType =>
      pre ++ "[`" ++ resolvedType.type ++ "`](#" ++ resolvedType.type.toLower ++ ")" ++ suf
    | none => pre ++ "`" ++ t ++ "`" ++ suf))

/-- Render one property row of the types table. -/
def propertyRow (sourceTypes : List SourceSchemaType) (isExpProp : String → Bool)
    (required : Option (List String)) (hasConstraints : Bool)
    (sourceSchemaProperty : SourceSchemaProperty) : String :=
  let isRequired := match required with
    | some req => req.contains sourceSchemaProperty.property
    | none => false
  let formattedProperty :=
    "`" ++ sourceSchemaProperty.property ++ "`" ++
    (if isRequired then "<sup>*</sup>" else "") ++
    (if isExpProp sourceSchemaProperty.property then "<br>**⚠ Experimental**" else "")
  let formattedPropertyType := formatPropertyType sourceTypes sourceSchemaProperty
  let formattedDefaultBehavior := sourceSchemaProperty.defaultAndNullBehavior
  let propDescription := match sourceSchemaProperty.schema.description with
    | some d => d
    | none => ""
  let formattedDescription :=
    String.mk (newlineToBr (formatDescriptionWithLinks propDescription).data)
  if hasConstraints then
    "| " ++ formattedProperty ++ " | " ++ formattedPropertyType ++ " | " ++
      formattedDefaultBehavior ++ " | " ++ formatConstraints sourceSchemaProperty.schema ++
      " | " ++ formattedDescription ++ " |\n"
  else
    "| " ++ formattedProperty ++ " | " ++ formattedPropertyType ++ " | " ++
      formattedDefaultBehavior ++ " | " ++ formattedDescription ++ " |\n"

/-- Render one `### Type` section of the types documentation. -/
def writeType (sourceTypes : List SourceSchemaType) (isExpProp : String → Bool)
    (sourceSchemaType : SourceSchemaType) : String :=
  let type := sourceSchemaType.type
  let required := sourceSchemaType.schema.required
  let header := "### " ++ type ++ " \x7b#" ++ type.toLower ++ "\x7d\n\n"
  let plugin :=
    if sourceSchemaType.schema.isSdkExtensionPlugin then
      "`" ++ type ++ "` is an SDK extension plugin point.\n\n"
    else ""
  let desc := match sourceSchemaType.schema.description with
    | some d => if d = "" then "" else formatDescriptionWithLinks d ++ "\n\n"
    | none => ""
  let body :=
    if sourceSchemaType.isEnumType then
      "**This is an enum type.**\n\n" ++ "<div class=\"types-table\">\n\n" ++
      "| Value | Description |\n" ++ "|---|---|\n" ++
      String.join (sourceSchemaType.sortedEnumValues.map (fun enumValue =>
        let enumDescription := sourceSchemaType.schema.enumDescriptions enumValue
        "| `" ++ enumValue ++ "` | " ++
          String.mk (newlineToBr (formatDescriptionWithLinks enumDescription).data) ++ " |\n")) ++
      "\n</div>\n\n"
    else
      let properties := sourceSchemaType.sortedProperties
      if properties.length = 0 then "**No properties.**\n\n"
      else
        let hasConstraints :=
          properties.any (fun prop => decide (formatConstraints prop.schema ≠ "None."))
        "<div class=\"types-table\">\n\n" ++
        (if hasConstraints then
          "| Property | Type | Default Behavior | Constraints | Description |\n" ++
          "|---|---|---|---|---|\n"
         else
          "| Property | Type | Default Behavior | Description |\n" ++
          "|---|---|---|---|\n") ++
        String.join (properties.map (propertyRow sourceTypes isExpProp required hasConstraints)) ++
        "\n</div>\n\n"
  let constraintsBlock :=
    let formattedConstraints := formatConstraints sourceSchemaType.schema
    if formattedConstraints = "None." then ""
    else "**Constraints:**\n\n" ++ formattedConstraints ++ "\n"
  header ++ plugin ++ desc ++ body ++ constraintsBlock

/-- The schema types sorted ascending by type name (stable sort; localeCompare
modelled as code-point order). -/
def sortTypes (sourceTypes : List SourceSchemaType) : List SourceSchemaType :=
  sourceTypes.mergeSort (fun a b => strLe a.type b.type)

/-- The sorted non-experimental types, in sorted order (the script partitions
the sorted array by pushing into two lists, which is an order-preserving
filter). -/
def stableTypesOf (sourceTypes : List SourceSchemaType) (isExpType : String → Bool) :
    List SourceSchemaType :=
  (sortTypes sourceTypes).filter (fun t => !(isExpType t.type))

/-- The sorted experimental types, in sorted order. -/
def experimentalTypesOf (sourceTypes : List SourceSchemaType) (isExpType : String → Bool) :
    List SourceSchemaType :=
  (sortTypes sourceTypes).filter (fun t => isExpType t.type)

/-- Generate types documentation content.  The inputs the script reads through
`readSourceTypesByType` and util.js's `isExperimentalType` /
`isExperimentalProperty` (modules absent from the snapshot) are explicit
parameters. -/
def generateTypesDocumentation (sourceTypes : List SourceSchemaType)
    (isExpType isExpProp : String → Bool) : String :=
  let types := stableTypesOf sourceTypes isExpType
  let experimentalTypes := experimentalTypesOf sourceTypes isExpType
  String.mk (jsTrimEnd
    ("## Stable Types\n\n" ++
     String.join (types.map (writeType sourceTypes isExpProp)) ++
     (if experimentalTypes.length > 0 then
        "## Experimental Types\n\n" ++
        "> **Warning:** Experimental types are subject to breaking changes.\n\n" ++
        String.join (experimentalTypes.map (writeType sourceTypes isExpProp))
      else "")).data)

/-- The replacement string `updateSection` builds:
canonical begin marker, newline, newContent, newline, canonical end marker. -/
def replacementString (u : DocUpdater) (markerId newContent : String) : String :=
  (u.getMarkerPattern markerId).1 ++ "\n" ++ newContent ++ "\n" ++ (u.getMarkerPattern markerId).2

/-- Does the template contain one of the `GetSubstitution` escapes: `$$`, `$&`,
a dollar before a backquote (code 96), or a dollar before a quote (code 39)?
When it does not, `getSubstitution` is the identity on it. -/
def hasDollarEscape : List Char → Bool
  | [] => false
  | [_] => false
  | c0 :: c :: rest =>
    if c0 = '$' then
      (c = '$' || c = '&' || c = Char.ofNat 96 || c = Char.ofNat 39) ||
        hasDollarEscape (c :: rest)
    else hasDollarEscape (c :: rest)

/-- Alternate outside pieces with filled pieces:
`stitch [p0, p1, ..., pk] [f0, ..., f(k-1)] = p0 ++ f0 ++ p1 ++ f1 ++ ... ++ pk`. -/
def stitch (outs fills : List (List Char)) : List Char :=
  match outs, fills with
  | [], _ => []
  | p :: _, [] => p
  | p :: ps, f :: fs => p ++ f ++ stitch ps fs

/-- The pieces of the original content outside the matched regions: before the
first match, between consecutive matches, and after the last match. -/
def outsideSegments (orig : List Char) : Nat → List (Nat × Nat) → List (List Char)
  | lastEnd, [] => [orig.drop lastEnd]
  | lastEnd, (pos, len) :: ms =>
    (orig.drop lastEnd).take (pos - lastEnd) :: outsideSegments orig (pos + len) ms

/-- The matched regions themselves, as pieces of the original content. -/
def matchedRegions (orig : List Char) : List (Nat × Nat) → List (List Char)
  | [] => []
  | (pos, len) :: ms => (orig.drop pos).take len :: matchedRegions orig ms

/-- The `GetSubstitution` expansions that replace the matched regions. -/
def fillPieces (orig repl : List Char) : List (Nat × Nat) → List (List Char)
  | [] => []
  | (pos, len) :: ms =>
    getSubstitution ((orig.drop pos).take len) (orig.take pos) (orig.drop (pos + len)) repl ::
      fillPieces orig repl ms

/-- Like `buildResult`, but inserting the replacement template verbatim — the
output shape the spec describes for replacement strings free of dollar
escapes. -/
def buildLiteral (orig repl : List Char) : Nat → List (Nat × Nat) → List Char
  | lastEnd, [] => orig.drop lastEnd
  | lastEnd, (pos, len) :: ms =>
    (orig.drop lastEnd).take (pos - lastEnd) ++ repl ++ buildLiteral orig repl (pos + len) ms

/-- Well-formed match lists: every match lies in `[lo, hi)`, is nonempty, and
the matches are ordered and non-overlapping. -/
inductive ChainedMatches (hi : Nat) : Nat → List (Nat × Nat) → Prop
  | nil (lo : Nat) : ChainedMatches hi lo []
  | cons (lo pos len : Nat) (ms : List (Nat × Nat)) :
      lo ≤ pos → 0 < len → pos + len ≤ hi →
      ChainedMatches hi (pos + len) ms → ChainedMatches hi lo ((pos, len) :: ms)

/-- Is position `q` inside one of the matches? -/
def coveredBy (ms : List (Nat × Nat)) (q : Nat) : Prop :=
  ∃ m ∈ ms, m.1 ≤ q ∧ q < m.1 + m.2

/-- A begin/end marker comment in one of the two forms `updateSection`
tolerates: with a SOURCE suffix (`withSfx = true`; whitespace `ws1` before the
SOURCE keyword, whitespace `ws2` after its colon, and a word-dash value `w`), or
without any suffix (`withSfx = false`, in which case `ws1 ws2 w` are unused). -/
def markerVariant (kw pref mid : String) (withSfx : Bool) (ws1 ws2 w : String) : List Char :=
  markerHead kw pref mid ++
    (if withSfx then ws1.data ++ "SOURCE:".data ++ ws2.data ++ w.data ++ " -->".data
     else " -->".data)

/-- No occurrence of the literal `pat` starts at a position of `s`, even when
`s` is followed by the continuation `ext` (occurrences may straddle the
boundary). -/
def noStraddleOccur (pat ext : List Char) : List Char → Bool
  | [] => true
  | c :: t => (matchLit pat (c :: t ++ ext)).isNone && noStraddleOccur pat ext t

/-- The status `supportStatusDetails` renders for a property: the status of the
first matching property override if any, the type-level status otherwise. -/
def propStatusOf (tss : TypeSupportStatus) (propName : String) : String :=
  match tss.propertyOverrides.find? (fun o => o.property == propName) with
  | some o => o.status
  | none => tss.status

/-- The status `supportStatusDetails` renders for an enum value: the status of
the first matching enum-value override if any, the type-level status
otherwise. -/
def enumStatusOf (tss : TypeSupportStatus) (enumValue : String) : String :=
  match tss.enumOverrides.find? (fun o => o.enumValue == enumValue) with
  | some o => o.status
  | none => tss.status

/-! ## Theorems

Basic properties of the matchers. -/

theorem matchLit_suffix : ∀ {lit s r : List Char}, matchLit lit s = some r → r <:+ s := by
  intro lit
  induction lit with
  | nil =>
    intro s r h
    simp only [matchLit, Option.some.injEq] at h
    subst h
    exact List.suffix_refl _
  | cons c cs ih =>
    intro s r h
    cases s with
    | nil => simp [matchLit] at h
    | cons d ds =>
      simp only [matchLit] at h
      split at h
      · exact (ih h).trans (List.suffix_cons d ds)
      · exact absurd h (by simp)

theorem matchLit_append : ∀ (lit r : List Char), matchLit lit (lit ++ r) = some r := by
  intro lit
  induction lit with
  | nil => intro r; rfl
  | cons c cs ih => intro r; simp [matchLit, ih]

theorem matchLit_length_lt {lit s r : List Char} (hne : lit ≠ [])
    (h : matchLit lit s = some r) : r.length < s.length := by
  cases lit with
  | nil => exact absurd rfl hne
  | cons c cs =>
    cases s with
    | nil => simp [matchLit] at h
    | cons d ds =>
      simp only [matchLit] at h
      split at h
      · have := (matchLit_suffix h).length_le
        simpa using Nat.lt_succ_of_le this
      · exact absurd h (by simp)

theorem matchWsPlus_suffix {s r : List Char} (h : matchWsPlus s = some r) : r <:+ s := by
  cases s with
  | nil => simp [matchWsPlus] at h
  | cons c t =>
    simp only [matchWsPlus] at h
    split at h
    · cases h
      exact (List.dropWhile_suffix _).trans (List.suffix_cons c t)
    · exact absurd h (by simp)

theorem matchWordDashPlus_suffix {s r : List Char} (h : matchWordDashPlus s = some r) :
    r <:+ s := by
  cases s with
  | nil => simp [matchWordDashPlus] at h
  | cons c t =>
    simp only [matchWordDashPlus] at h
    split at h
    · cases h
      exact (List.dropWhile_suffix _).trans (List.suffix_cons c t)
    · exact absurd h (by simp)

theorem matchTail_suffix {s r : List Char} (h : matchTail s = some r) : r <:+ s := by
  unfold matchTail at h
  split at h
  next r' heq =>
    cases h
    obtain ⟨s1, h1, heq⟩ := Option.bind_eq_some.mp heq
    obtain ⟨s2, h2, heq⟩ := Option.bind_eq_some.mp heq
    obtain ⟨s3, h3, heq⟩ := Option.bind_eq_some.mp heq
    obtain ⟨s4, h4, heq⟩ := Option.bind_eq_some.mp heq
    exact ((((matchLit_suffix heq).trans (matchWordDashPlus_suffix h4)).trans
      (matchWsPlus_suffix h3)).trans (matchLit_suffix h2)).trans (matchWsPlus_suffix h1)
  next heq => exact matchLit_suffix h

theorem markerHead_eq_cons (kw pref mid : String) :
    markerHead kw pref mid = '<' :: ("!-- " ++ kw ++ " " ++ pref ++ ": " ++ mid).data := by
  simp [markerHead, String.data_append]

theorem matchMarker_suffix {kw pref mid : String} {s r : List Char}
    (h : matchMarker kw pref mid s = some r) : r <:+ s := by
  obtain ⟨s1, h1, h2⟩ := Option.bind_eq_some.mp h
  exact (matchTail_suffix h2).trans (matchLit_suffix h1)

theorem matchMarker_length_lt {kw pref mid : String} {s r : List Char}
    (h : matchMarker kw pref mid s = some r) : r.length < s.length := by
  obtain ⟨s1, h1, h2⟩ := Option.bind_eq_some.mp h
  have hne : markerHead kw pref mid ≠ [] := by
    rw [markerHead_eq_cons]; exact List.cons_ne_nil _ _
  exact Nat.lt_of_le_of_lt (matchTail_suffix h2).length_le (matchLit_length_lt hne h1)

theorem findEndFrom_suffix {pref mid : String} :
    ∀ {s r : List Char}, findEndFrom pref mid s = some r → r <:+ s := by
  intro s
  induction s with
  | nil =>
    intro r h
    simp only [findEndFrom] at h
    exact matchMarker_suffix h
  | cons c t ih =>
    intro r h
    simp only [findEndFrom] at h
    split at h
    next r' heq => cases h; exact matchMarker_suffix heq
    next heq => exact (ih h).trans (List.suffix_cons c t)

theorem matchPatternAt_suffix {pref mid : String} {s r : List Char}
    (h : matchPatternAt pref mid s = some r) : r <:+ s := by
  obtain ⟨s1, h1, h2⟩ := Option.bind_eq_some.mp h
  exact (findEndFrom_suffix h2).trans (matchMarker_suffix h1)

theorem matchPatternAt_length_lt {pref mid : String} {s r : List Char}
    (h : matchPatternAt pref mid s = some r) : r.length < s.length := by
  obtain ⟨s1, h1, h2⟩ := Option.bind_eq_some.mp h
  exact Nat.lt_of_le_of_lt (findEndFrom_suffix h2).length_le (matchMarker_length_lt h1)

theorem ChainedMatches.mono {hi lo lo' : Nat} {ms : List (Nat × Nat)}
    (h : ChainedMatches hi lo' ms) (hle : lo ≤ lo') : ChainedMatches hi lo ms := by
  cases h with
  | nil => exact ChainedMatches.nil lo
  | cons lo' pos len ms h1 h2 h3 h4 =>
    exact ChainedMatches.cons lo pos len ms (hle.trans h1) h2 h3 h4

theorem scanGo_chained (pref mid : String) :
    ∀ (s : List Char) (pos skip : Nat),
      ChainedMatches (pos + s.length) (pos + skip) (scanGo pref mid s pos skip) := by
  intro s
  induction s with
  | nil => intro pos skip; exact ChainedMatches.nil _
  | cons c t ih =>
    intro pos skip
    cases skip with
    | succ k =>
      have hIH := ih (pos + 1) k
      have e1 : pos + 1 + t.length = pos + (c :: t).length := by
        simp [List.length_cons]; omega
      rw [e1] at hIH
      simpa only [scanGo] using hIH.mono (by omega)
    | zero =>
      simp only [scanGo]
      split
      next r heq =>
        have hlt := matchPatternAt_length_lt heq
        have h1 : 0 < (c :: t).length - r.length := by omega
        have hIH := ih (pos + 1) ((c :: t).length - r.length - 1)
        have e1 : pos + 1 + t.length = pos + (c :: t).length := by
          simp [List.length_cons]; omega
        have e2 : pos + 1 + ((c :: t).length - r.length - 1) =
            pos + ((c :: t).length - r.length) := by omega
        rw [e1, e2] at hIH
        exact ChainedMatches.cons _ _ _ _ (by omega) h1 (by omega) hIH
      next heq =>
        have hIH := ih (pos + 1) 0
        have e1 : pos + 1 + t.length = pos + (c :: t).length := by
          simp [List.length_cons]; omega
        rw [e1] at hIH
        exact hIH.mono (by omega)

theorem scanGo_skip_all (pref mid : String) :
    ∀ (s : List Char) (pos skip : Nat), s.length ≤ skip → scanGo pref mid s pos skip = [] := by
  intro s
  induction s with
  | nil => intro pos skip _; rfl
  | cons c t ih =>
    intro pos skip h
    cases skip with
    | zero => simp [List.length_cons] at h
    | succ k =>
      simp only [scanGo]
      exact ih (pos + 1) k (by simp [List.length_cons] at h; omega)

theorem take_append_drop_of_le {a b : Nat} (orig : List Char) (h : a ≤ b) :
    (orig.drop a).take (b - a) ++ orig.drop b = orig.drop a := by
  have h1 : (orig.drop a).take (b - a) ++ (orig.drop a).drop (b - a) = orig.drop a :=
    List.take_append_drop _ _
  rwa [List.drop_drop, Nat.add_sub_cancel' h] at h1

theorem stitch_outside_matched (orig : List Char) :
    ∀ (ms : List (Nat × Nat)) (lastEnd : Nat),
      ChainedMatches orig.length lastEnd ms →
      stitch (outsideSegments orig lastEnd ms) (matchedRegions orig ms) = orig.drop lastEnd := by
  intro ms
  induction ms with
  | nil => intro lastEnd _; rfl
  | cons m rest ih =>
    intro lastEnd h
    obtain ⟨pos, len⟩ := m
    cases h with
    | cons _ _ _ _ h1 h2 h3 h4 =>
      simp only [outsideSegments, matchedRegions, stitch]
      rw [ih (pos + len) h4]
      have hinner : (orig.drop pos).take len ++ orig.drop (pos + len) = orig.drop pos := by
        have := take_append_drop_of_le orig (Nat.le_add_right pos len)
        rwa [Nat.add_sub_cancel_left] at this
      rw [List.append_assoc, hinner, take_append_drop_of_le orig h1]

theorem buildResult_eq_stitch (orig repl : List Char) :
    ∀ (ms : List (Nat × Nat)) (lastEnd : Nat),
      buildResult orig repl lastEnd ms =
        stitch (outsideSegments orig lastEnd ms) (fillPieces orig repl ms) := by
  intro ms
  induction ms with
  | nil => intro lastEnd; rfl
  | cons m rest ih =>
    intro lastEnd
    obtain ⟨pos, len⟩ := m
    simp only [buildResult, outsideSegments, fillPieces, stitch, ih (pos + len)]

theorem getSubstitution_id (matched before after : List Char) :
    ∀ (l : List Char), hasDollarEscape l = false →
      getSubstitution matched before after l = l := by
  have key : ∀ (n : Nat) (l : List Char), l.length ≤ n → hasDollarEscape l = false →
      getSubstitution matched before after l = l := by
    intro n
    induction n with
    | zero =>
      intro l hl _
      cases l with
      | nil => rfl
      | cons c t => simp at hl
    | succ n ihn =>
      intro l hl h
      cases l with
      | nil => rfl
      | cons c0 rest0 =>
        revert h hl
        cases rest0 with
        | nil => intro _ _; rfl
        | cons c rest =>
          intro hl h
          by_cases hc : c0 = '$'
          · subst hc
            simp only [hasDollarEscape, if_pos rfl] at h
            simp at h
            obtain ⟨⟨⟨⟨hc1, hc2⟩, hc3⟩, hc4⟩, h5⟩ := h
            simp only [getSubstitution, if_pos rfl, if_neg hc1, if_neg hc2, if_neg hc3,
              if_neg hc4]
            rw [ihn (c :: rest) (by simp at hl ⊢; omega) h5]
            simp
          · simp only [hasDollarEscape, if_neg hc] at h
            simp only [getSubstitution, if_neg hc]
            rw [ihn (c :: rest) (by simp at hl ⊢; omega) h]
  intro l
  exact key l.length l (Nat.le_refl _)

theorem buildResult_eq_buildLiteral (orig repl : List Char)
    (hD : hasDollarEscape repl = false) :
    ∀ (ms : List (Nat × Nat)) (lastEnd : Nat),
      buildResult orig repl lastEnd ms = buildLiteral orig repl lastEnd ms := by
  intro ms
  induction ms with
  | nil => intro lastEnd; rfl
  | cons m rest ih =>
    intro lastEnd
    obtain ⟨pos, len⟩ := m
    simp only [buildResult, buildLiteral, ih, getSubstitution_id _ _ _ _ hD]

/-- C10: the two copies of `DocUpdater.updateSection` — in
scripts/synchronize-documentation.js and in the older script — are extensionally
equal: for instances with the same markerPrefix and source, both return
identical (content, wasUpdated) results on every input.  (The two method bodies
are token-for-token identical, so the embeddings coincide definitionally.) -/
theorem updateSection_copies_agree (pref src content markerId newContent : String) :
    (DocUpdater.mk pref src).updateSection content markerId newContent =
      (OldScript.DocUpdater.mk pref src).updateSection content markerId newContent := rfl

/-- C4: if the content contains no begin/end marker pair for the marker id (the
pattern matches nowhere), `updateSection` returns the input unchanged with
wasUpdated = false, `updateFile` consequently returns false and leaves the file
system unchanged, and `updateFile` on a missing file throws (returns the
File-not-found error) instead of returning. -/
theorem updateSection_no_marker_pair (u : DocUpdater) (fs : FileSystem)
    (filePath markerId newContent content : String)
    (h : testPattern u.markerPref markerId content.data = false) :
    u.updateSection content markerId newContent = (content, false) ∧
    (fs filePath = some content →
      u.updateFile fs filePath markerId newContent = Except.ok (fs, false)) ∧
    (fs filePath = none →
      u.updateFile fs filePath markerId newContent =
        Except.error ("File not found: " ++ filePath)) := by
  have h1 : u.updateSection content markerId newContent = (content, false) := by
    simp [DocUpdater.updateSection, h]
  refine ⟨h1, ?_, ?_⟩
  · intro hfs
    simp [DocUpdater.updateFile, hfs, h1]
  · intro hfs
    simp [DocUpdater.updateFile, hfs]

/-- Witness for C4 at concrete inputs: content without markers is returned
unchanged with false, the file system is untouched, and a missing file path
yields the thrown error. -/
theorem updateSection_no_marker_pair_witness :
    defaultUpdater.updateSection "hello world" "m" "NEW" = ("hello world", false) ∧
    defaultUpdater.updateFile (fun p => if p = "doc.md" then some "hello world" else none)
        "doc.md" "m" "NEW" =
      Except.ok ((fun p => if p = "doc.md" then some "hello world" else none : FileSystem),
        false) ∧
    defaultUpdater.updateFile (fun _ => none) "missing.md" "m" "NEW" =
      Except.error ("File not found: " ++ "missing.md") := by
  have h1 := updateSection_no_marker_pair defaultUpdater
    (fun p => if p = "doc.md" then some "hello world" else none) "doc.md" "m" "NEW"
    "hello world" (by decide)
  have h2 := updateSection_no_marker_pair defaultUpdater (fun _ => none) "missing.md" "m"
    "NEW" "hello world" (by decide)
  exact ⟨h1.1, h1.2.1 (by decide), h2.2.2 rfl⟩

/-- C2: for every content string, markerId and newContent, the text outside the
marker-delimited regions is identical in the result of `updateSection`: the
input content is exactly the outside segments interleaved with the matched
regions, and the output is the same outside segments interleaved with the
substituted pieces (the regions themselves when nothing was updated) — only the
matched regions are substituted. -/
theorem updateSection_frame (u : DocUpdater) (content markerId newContent : String) :
    content.data =
      stitch (outsideSegments content.data 0 (updateMatches u.markerPref markerId content.data))
        (matchedRegions content.data (updateMatches u.markerPref markerId content.data)) ∧
    (u.updateSection content markerId newContent).1.data =
      stitch (outsideSegments content.data 0 (updateMatches u.markerPref markerId content.data))
        (if (u.updateSection content markerId newContent).2 then
          fillPieces content.data (replacementString u markerId newContent).data
            (updateMatches u.markerPref markerId content.data)
         else
          matchedRegions content.data (updateMatches u.markerPref markerId content.data)) := by
  have hch : ChainedMatches content.data.length 0
      (updateMatches u.markerPref markerId content.data) := by
    have := scanGo_chained u.markerPref markerId content.data 0 0
    simpa [updateMatches] using this
  have hdec := stitch_outside_matched content.data _ 0 hch
  refine ⟨by simpa using hdec.symm, ?_⟩
  by_cases hT : testPattern u.markerPref markerId content.data
  · have hsec : u.updateSection content markerId newContent =
        (String.mk (jsReplaceAll u.markerPref markerId
          (replacementString u markerId newContent).data content.data), true) := by
      simp [DocUpdater.updateSection, hT, replacementString]
    rw [hsec]
    simp only [jsReplaceAll, if_true]
    exact buildResult_eq_stitch _ _ _ _
  · have hF : testPattern u.markerPref markerId content.data = false := by
      simpa using hT
    have hsec : u.updateSection content markerId newContent = (content, false) := by
      simp [DocUpdater.updateSection, hF]
    rw [hsec]
    simpa using hdec.symm

/-- C1 (amended): for every content string in which the pattern matches (a begin
marker for markerId followed later by a matching end marker), and every
newContent for which the replacement string (canonical begin marker, newline,
newContent, newline, canonical end marker) contains no dollar replacement
escape, `updateSection` returns wasUpdated = true and the content in which each
marker-delimited region — matched minimally, from a begin marker to the nearest
following end marker, as collected in `updateMatches` — is replaced verbatim by
that replacement string. -/
theorem updateSection_literal_replace (u : DocUpdater) (content markerId newContent : String)
    (hT : testPattern u.markerPref markerId content.data = true)
    (hD : hasDollarEscape (replacementString u markerId newContent).data = false) :
    u.updateSection content markerId newContent =
      (String.mk (buildLiteral content.data (replacementString u markerId newContent).data 0
        (updateMatches u.markerPref markerId content.data)), true) := by
  have hsec : u.updateSection content markerId newContent =
      (String.mk (jsReplaceAll u.markerPref markerId
        (replacementString u markerId newContent).data content.data), true) := by
    simp [DocUpdater.updateSection, hT, replacementString]
  rw [hsec]
  simp only [jsReplaceAll]
  rw [buildResult_eq_buildLiteral _ _ hD]

/-- Witness for C1's amended theorem at concrete inputs. -/
theorem updateSection_literal_replace_witness :
    defaultUpdater.updateSection "A<!-- BEGIN GENERATED: m -->x<!-- END GENERATED: m -->B"
        "m" "NEW" =
      (String.mk (buildLiteral
        "A<!-- BEGIN GENERATED: m -->x<!-- END GENERATED: m -->B".data
        (replacementString defaultUpdater "m" "NEW").data 0
        (updateMatches defaultUpdater.markerPref "m"
          "A<!-- BEGIN GENERATED: m -->x<!-- END GENERATED: m -->B".data)), true) :=
  updateSection_literal_replace defaultUpdater
    "A<!-- BEGIN GENERATED: m -->x<!-- END GENERATED: m -->B" "m" "NEW"
    (by decide) (by decide)

set_option maxRecDepth 8000 in
/-- C1 as literally stated is false on the code: with newContent = "$$" (whose
dollar pair is a GetSubstitution escape), the marker-delimited region is not
replaced by begin marker, newline, "$$", newline, end marker — the replace
collapses "$$" to a single dollar, as `String.prototype.replace` does. -/
theorem updateSection_dollar_counterexample :
    defaultUpdater.updateSection
        "<!-- BEGIN GENERATED: m -->x<!-- END GENERATED: m -->" "m" "$$" =
      ("<!-- BEGIN GENERATED: m SOURCE: opentelemetry-configuration -->\n$\n<!-- END GENERATED: m SOURCE: opentelemetry-configuration -->",
        true) ∧
    defaultUpdater.updateSection
        "<!-- BEGIN GENERATED: m -->x<!-- END GENERATED: m -->" "m" "$$" ≠
      ("<!-- BEGIN GENERATED: m SOURCE: opentelemetry-configuration -->\n$$\n<!-- END GENERATED: m SOURCE: opentelemetry-configuration -->",
        true) := by
  constructor
  · decide
  · decide

/-- A word-dash character is never whitespace: the two regex classes are
disjoint, which pins down the greedy runs in the marker pattern. -/
theorem jsWordDash_not_ws {c : Char} (h : jsWordDash c = true) : jsWhitespace c = false := by
  cases hw : jsWhitespace c
  · rfl
  · exfalso
    simp only [jsWordDash, Bool.or_eq_true, Bool.and_eq_true, decide_eq_true_eq] at h
    simp only [jsWhitespace, Bool.or_eq_true, Bool.and_eq_true, decide_eq_true_eq] at hw
    omega

theorem dropWhile_append_of_all {p : Char → Bool} :
    ∀ {l : List Char} {c : Char} {r : List Char},
      (∀ x ∈ l, p x = true) → p c = false → (l ++ c :: r).dropWhile p = c :: r := by
  intro l
  induction l with
  | nil =>
    intro c r _ hc
    simp [List.dropWhile_cons, hc]
  | cons d t ih =>
    intro c r hall hc
    have hd : p d = true := hall d (by simp)
    simp only [List.cons_append, List.dropWhile_cons, hd, if_true]
    exact ih (fun x hx => hall x (by simp [hx])) hc

theorem matchWsPlus_run {l : List Char} {c : Char} {r : List Char} (hne : l ≠ [])
    (hall : ∀ x ∈ l, jsWhitespace x = true) (hc : jsWhitespace c = false) :
    matchWsPlus (l ++ c :: r) = some (c :: r) := by
  cases l with
  | nil => exact absurd rfl hne
  | cons d t =>
    have hd : jsWhitespace d = true := hall d (by simp)
    simp only [List.cons_append, matchWsPlus, hd, if_true]
    rw [dropWhile_append_of_all (fun x hx => hall x (by simp [hx])) hc]

theorem matchWordDashPlus_run {l : List Char} {c : Char} {r : List Char} (hne : l ≠ [])
    (hall : ∀ x ∈ l, jsWordDash x = true) (hc : jsWordDash c = false) :
    matchWordDashPlus (l ++ c :: r) = some (c :: r) := by
  cases l with
  | nil => exact absurd rfl hne
  | cons d t =>
    have hd : jsWordDash d = true := hall d (by simp)
    simp only [List.cons_append, matchWordDashPlus, hd, if_true]
    rw [dropWhile_append_of_all (fun x hx => hall x (by simp [hx])) hc]

theorem matchTail_sfx {ws1 ws2 w : List Char} {r : List Char}
    (h1 : ws1 ≠ []) (h1a : ∀ x ∈ ws1, jsWhitespace x = true)
    (h2 : ws2 ≠ []) (h2a : ∀ x ∈ ws2, jsWhitespace x = true)
    (h3 : w ≠ []) (h3a : ∀ x ∈ w, jsWordDash x = true) :
    matchTail (ws1 ++ "SOURCE:".data ++ ws2 ++ w ++ " -->".data ++ r) = some r := by
  obtain ⟨wh, wt, hwsh⟩ : ∃ wh wt, w = wh :: wt := by
    cases w with
    | nil => exact absurd rfl h3
    | cons a b => exact ⟨a, b, rfl⟩
  have e1 : ws1 ++ "SOURCE:".data ++ ws2 ++ w ++ " -->".data ++ r =
      ws1 ++ 'S' :: ("OURCE:".data ++ ws2 ++ w ++ " -->".data ++ r) := by
    simp [List.append_assoc]
  have hstep1 : matchWsPlus (ws1 ++ "SOURCE:".data ++ ws2 ++ w ++ " -->".data ++ r) =
      some ("SOURCE:".data ++ ws2 ++ w ++ " -->".data ++ r) := by
    rw [e1, matchWsPlus_run h1 h1a (by decide)]
    simp [List.append_assoc]
  have hstep2 : matchLit "SOURCE:".data ("SOURCE:".data ++ ws2 ++ w ++ " -->".data ++ r) =
      some (ws2 ++ w ++ " -->".data ++ r) := by
    have := matchLit_append "SOURCE:".data (ws2 ++ w ++ " -->".data ++ r)
    simpa [List.append_assoc] using this
  have hstep3 : matchWsPlus (ws2 ++ w ++ " -->".data ++ r) =
      some (w ++ " -->".data ++ r) := by
    have e2 : ws2 ++ w ++ " -->".data ++ r = ws2 ++ wh :: (wt ++ " -->".data ++ r) := by
      simp [hwsh, List.append_assoc]
    rw [e2, matchWsPlus_run h2 h2a (jsWordDash_not_ws (h3a wh (by simp [hwsh])))]
    simp [hwsh, List.append_assoc]
  have hstep4 : matchWordDashPlus (w ++ " -->".data ++ r) =
      some (" -->".data ++ r) := by
    have e3 : w ++ " -->".data ++ r = w ++ ' ' :: ("-->".data ++ r) := by
      simp [List.append_assoc]
    rw [e3, matchWordDashPlus_run h3 h3a (by decide)]
    simp [List.append_assoc]
  have hstep5 : matchLit " -->".data (" -->".data ++ r) = some r := matchLit_append _ _
  rw [matchTail, hstep1]
  simp only [Option.some_bind]
  rw [hstep2]
  simp only [Option.some_bind]
  rw [hstep3]
  simp only [Option.some_bind]
  rw [hstep4]
  simp only [Option.some_bind]
  rw [hstep5]

theorem matchTail_nosfx {r : List Char} : matchTail (" -->".data ++ r) = some r := by
  have e1 : " -->".data ++ r = ' ' :: ('-' :: ("->".data ++ r)) := by simp
  have hws : matchWsPlus (" -->".data ++ r) = some ('-' :: ("->".data ++ r)) := by
    rw [e1]
    simp [matchWsPlus, List.dropWhile_cons, show jsWhitespace ' ' = true from by decide,
      show jsWhitespace '-' = false from by decide]
  have hlit : matchLit "SOURCE:".data ('-' :: ("->".data ++ r)) = none := by
    simp [matchLit]
  rw [matchTail, hws]
  simp only [Option.some_bind]
  rw [hlit]
  simp only [Option.none_bind]
  exact matchLit_append _ _

theorem markerVariant_cons (kw pref mid : String) (b : Bool) (ws1 ws2 w : String) :
    markerVariant kw pref mid b ws1 ws2 w =
      '<' :: (("!-- " ++ kw ++ " " ++ pref ++ ": " ++ mid).data ++
        (if b then ws1.data ++ "SOURCE:".data ++ ws2.data ++ w.data ++ " -->".data
         else " -->".data)) := by
  rw [markerVariant, markerHead_eq_cons]
  rfl

theorem matchMarker_variant (kw pref mid : String) (b : Bool) (ws1 ws2 w : String)
    (r : List Char)
    (h1 : ws1.data ≠ []) (h1a : ∀ x ∈ ws1.data, jsWhitespace x = true)
    (h2 : ws2.data ≠ []) (h2a : ∀ x ∈ ws2.data, jsWhitespace x = true)
    (h3 : w.data ≠ []) (h3a : ∀ x ∈ w.data, jsWordDash x = true) :
    matchMarker kw pref mid (markerVariant kw pref mid b ws1 ws2 w ++ r) = some r := by
  rw [matchMarker, markerVariant]
  cases b with
  | true =>
    have hlit : matchLit (markerHead kw pref mid)
        (markerHead kw pref mid ++
          (ws1.data ++ "SOURCE:".data ++ ws2.data ++ w.data ++ " -->".data) ++ r) =
        some (ws1.data ++ "SOURCE:".data ++ ws2.data ++ w.data ++ " -->".data ++ r) := by
      have := matchLit_append (markerHead kw pref mid)
        (ws1.data ++ "SOURCE:".data ++ ws2.data ++ w.data ++ " -->".data ++ r)
      simpa [List.append_assoc] using this
    simp only [if_true]
    rw [hlit]
    simp only [Option.some_bind]
    exact matchTail_sfx h1 h1a h2 h2a h3 h3a
  | false =>
    have hlit : matchLit (markerHead kw pref mid)
        (markerHead kw pref mid ++ " -->".data ++ r) = some (" -->".data ++ r) := by
      have := matchLit_append (markerHead kw pref mid) (" -->".data ++ r)
      simpa [List.append_assoc] using this
    have hlit2 : matchLit (markerHead kw pref mid)
        (markerHead kw pref mid ++ (" -->".data ++ r)) = some (" -->".data ++ r) :=
      matchLit_append _ _
    simp only [Bool.false_eq_true, if_false, List.append_assoc]
    rw [hlit2]
    simp only [Option.some_bind]
    exact matchTail_nosfx

theorem matchMarker_cons_ne {kw pref mid : String} {c : Char} {t : List Char}
    (hc : c ≠ '<') : matchMarker kw pref mid (c :: t) = none := by
  rw [matchMarker, markerHead_eq_cons]
  have hcc : ¬ ('<' = c) := fun h => hc (Eq.symm h)
  simp only [matchLit, if_neg hcc]
  rfl

theorem testPattern_of_matchPatternAt {pref mid : String} {s r : List Char}
    (h : matchPatternAt pref mid s = some r) : testPattern pref mid s = true := by
  cases s with
  | nil => simp [testPattern, h]
  | cons c t => simp [testPattern, h]

theorem updateMatches_full {pref mid : String} {s : List Char}
    (h : matchPatternAt pref mid s = some []) (hs : s ≠ []) :
    updateMatches pref mid s = [(0, s.length)] := by
  cases s with
  | nil => exact absurd rfl hs
  | cons c t =>
    rw [updateMatches, scanGo, h]
    simp only [List.length_nil, Nat.sub_zero]
    rw [scanGo_skip_all pref mid t 1 ((c :: t).length - 1) (by simp [List.length_cons])]

theorem jsReplaceAll_full {pref mid : String} {repl s : List Char}
    (h : updateMatches pref mid s = [(0, s.length)])
    (hD : hasDollarEscape repl = false) : jsReplaceAll pref mid repl s = repl := by
  rw [jsReplaceAll, h]
  simp [buildResult, getSubstitution_id _ _ _ _ hD, List.drop_length]

theorem getMarkerPattern_fst_data (u : DocUpdater) (mid : String) :
    ((u.getMarkerPattern mid).1).data =
      markerVariant "BEGIN" u.markerPref mid true " " " " u.source := by
  simp only [DocUpdater.getMarkerPattern, markerVariant, markerHead, if_true,
    String.data_append, List.append_assoc]
  simp [List.append_assoc]

theorem getMarkerPattern_snd_data (u : DocUpdater) (mid : String) :
    ((u.getMarkerPattern mid).2).data =
      markerVariant "END" u.markerPref mid true " " " " u.source := by
  simp only [DocUpdater.getMarkerPattern, markerVariant, markerHead, if_true,
    String.data_append, List.append_assoc]
  simp [List.append_assoc]

theorem findEndFrom_cons_some {pref mid : String} {c : Char} {t r : List Char}
    (h : matchMarker "END" pref mid (c :: t) = some r) :
    findEndFrom pref mid (c :: t) = some r := by
  simp only [findEndFrom, h]

theorem findEndFrom_cons_none {pref mid : String} {c : Char} {t : List Char}
    (h : matchMarker "END" pref mid (c :: t) = none) :
    findEndFrom pref mid (c :: t) = findEndFrom pref mid t := by
  simp only [findEndFrom, h]

/-- C3: `updateSection` matches a marker pair tolerantly.  For every markerId (and
independently for the begin and the end marker), a marker comment is recognized
both when it carries a SOURCE suffix — with arbitrary (nonempty) whitespace
before the SOURCE keyword and after its colon, and an arbitrary word-dash
value — and when it omits the suffix entirely; the matched pair is rewritten to
the canonical form that includes the SOURCE suffix (here: content consisting of
any such begin variant, a middle, and any such end variant is rewritten to the
canonical replacement, with wasUpdated = true). -/
theorem updateSection_tolerant (mid ws1 ws2 w ws3 ws4 w2 newContent : String) (b e : Bool)
    (hws1 : ws1.data ≠ []) (hws1a : ∀ x ∈ ws1.data, jsWhitespace x = true)
    (hws2 : ws2.data ≠ []) (hws2a : ∀ x ∈ ws2.data, jsWhitespace x = true)
    (hw : w.data ≠ []) (hwa : ∀ x ∈ w.data, jsWordDash x = true)
    (hws3 : ws3.data ≠ []) (hws3a : ∀ x ∈ ws3.data, jsWhitespace x = true)
    (hws4 : ws4.data ≠ []) (hws4a : ∀ x ∈ ws4.data, jsWhitespace x = true)
    (hw2 : w2.data ≠ []) (hw2a : ∀ x ∈ w2.data, jsWordDash x = true)
    (hD : hasDollarEscape (replacementString defaultUpdater mid newContent).data = false) :
    defaultUpdater.updateSection
        (String.mk (markerVariant "BEGIN" "GENERATED" mid b ws1 ws2 w ++
          'x' :: markerVariant "END" "GENERATED" mid e ws3 ws4 w2)) mid newContent =
      (replacementString defaultUpdater mid newContent, true) := by
  set vB := markerVariant "BEGIN" "GENERATED" mid b ws1 ws2 w with hvB
  set vE := markerVariant "END" "GENERATED" mid e ws3 ws4 w2 with hvE
  set L := vB ++ 'x' :: vE with hL
  have hB : matchMarker "BEGIN" "GENERATED" mid L = some ('x' :: vE) :=
    matchMarker_variant _ _ _ b ws1 ws2 w _ hws1 hws1a hws2 hws2a hw hwa
  have hEx : matchMarker "END" "GENERATED" mid ('x' :: vE) = none :=
    matchMarker_cons_ne (by decide)
  have hEv : matchMarker "END" "GENERATED" mid vE = some [] := by
    have := matchMarker_variant "END" "GENERATED" mid e ws3 ws4 w2 []
      hws3 hws3a hws4 hws4a hw2 hw2a
    simpa using this
  obtain ⟨tE, htE⟩ : ∃ t, vE = '<' :: t :=
    ⟨_, markerVariant_cons "END" "GENERATED" mid e ws3 ws4 w2⟩
  have hEv2 : matchMarker "END" "GENERATED" mid ('<' :: tE) = some [] := by
    rw [← htE]; exact hEv
  have hfindE : findEndFrom "GENERATED" mid vE = some [] := by
    rw [htE]
    exact findEndFrom_cons_some hEv2
  have hfind : findEndFrom "GENERATED" mid ('x' :: vE) = some [] := by
    rw [findEndFrom_cons_none hEx]
    exact hfindE
  have hpat : matchPatternAt "GENERATED" mid L = some [] := by
    rw [matchPatternAt, hB]
    simp only [Option.some_bind]
    exact hfind
  have hT : testPattern "GENERATED" mid L = true := testPattern_of_matchPatternAt hpat
  have hLne : L ≠ [] := by
    obtain ⟨tB, htB⟩ : ∃ t, vB = '<' :: t :=
      ⟨_, markerVariant_cons "BEGIN" "GENERATED" mid b ws1 ws2 w⟩
    rw [hL, htB]
    simp
  have hum : updateMatches "GENERATED" mid L = [(0, L.length)] := updateMatches_full hpat hLne
  have hrepl : jsReplaceAll "GENERATED" mid
      (replacementString defaultUpdater mid newContent).data L =
      (replacementString defaultUpdater mid newContent).data :=
    jsReplaceAll_full hum hD
  have hsec : defaultUpdater.updateSection (String.mk L) mid newContent =
      (String.mk (jsReplaceAll "GENERATED" mid
        (replacementString defaultUpdater mid newContent).data L), true) := by
    simp [DocUpdater.updateSection, defaultUpdater, hT, replacementString]
  rw [hsec, hrepl]

/-- Witness for C3 at concrete inputs: a begin marker with a legacy SOURCE
suffix and an end marker without any suffix are both matched and rewritten to
the canonical pair. -/
theorem updateSection_tolerant_witness :
    defaultUpdater.updateSection
        (String.mk (markerVariant "BEGIN" "GENERATED" "m" true " " " " "legacy" ++
          'x' :: markerVariant "END" "GENERATED" "m" false " " " " "v2")) "m" "NEW" =
      (replacementString defaultUpdater "m" "NEW", true) :=
  updateSection_tolerant "m" " " " " "legacy" " " " " "v2" "NEW" true false
    (by decide) (by decide) (by decide) (by decide) (by decide) (by decide)
    (by decide) (by decide) (by decide) (by decide) (by decide) (by decide)
    (by decide)

/-- C5: the two generators are deterministic.  The embedding makes every ambient
input of the script an explicit parameter (source schema, problem messages,
implementation records, known languages, experimental classification), and both
functions are pure functions of those parameters, so two runs over the same
inputs produce character-for-character identical output — there is no hidden
state, randomness, or iteration-order nondeterminism. -/
theorem generators_deterministic
    (kl kl' : List String) (st st' : List SourceSchemaType) (ms ms' : List String)
    (li li' : List LanguageImplementation) (iT iT' iP iP' : String → Bool)
    (h1 : kl = kl') (h2 : st = st') (h3 : ms = ms') (h4 : li = li')
    (h5 : iT = iT') (h6 : iP = iP') :
    generateLanguageImplementationStatus kl st ms li =
      generateLanguageImplementationStatus kl' st' ms' li' ∧
    generateTypesDocumentation st iT iP = generateTypesDocumentation st' iT' iP' := by
  subst h1; subst h2; subst h3; subst h4; subst h5; subst h6
  exact ⟨rfl, rfl⟩

/-- Witness for C5 at concrete inputs. -/
theorem generators_deterministic_witness :
    generateLanguageImplementationStatus ["java"] [] [] [] =
      generateLanguageImplementationStatus ["java"] [] [] [] ∧
    generateTypesDocumentation [] (fun _ => false) (fun _ => true) =
      generateTypesDocumentation [] (fun _ => false) (fun _ => true) :=
  generators_deterministic ["java"] ["java"] [] [] [] [] [] []
    (fun _ => false) (fun _ => false) (fun _ => true) (fun _ => true)
    rfl rfl rfl rfl rfl rfl

theorem mapM_except_ok_iff {α β : Type} (f : α → Except String β) :
    ∀ (l : List α), (∃ out, l.mapM f = Except.ok out) ↔ ∀ x ∈ l, ∃ y, f x = Except.ok y := by
  intro l
  rw [← List.mapM'_eq_mapM]
  induction l with
  | nil =>
    simp only [List.mapM', List.not_mem_nil, false_implies, implies_true, iff_true]
    exact ⟨[], rfl⟩
  | cons a t ih =>
    simp only [List.mapM']
    constructor
    · rintro ⟨out, hout⟩
      cases hfa : f a with
      | error e =>
        rw [hfa] at hout
        simp [Bind.bind, Except.bind] at hout
      | ok y =>
        cases hmt : List.mapM' f t with
        | error e =>
          rw [hfa, hmt] at hout
          simp [Bind.bind, Except.bind] at hout
        | ok ys =>
          intro x hx
          rcases List.mem_cons.mp hx with hx | hx
          · exact ⟨y, by rw [hx]; exact hfa⟩
          · exact (ih.mp ⟨ys, hmt⟩) x hx
    · intro hall
      obtain ⟨y, hy⟩ := hall a (by simp)
      obtain ⟨ys, hys⟩ := ih.mpr (fun x hx => hall x (by simp [hx]))
      refine ⟨y :: ys, ?_⟩
      rw [hy, hys]
      rfl

theorem typeRow_ok_iff (st : List SourceSchemaType) (tss : TypeSupportStatus) :
    (∃ out, typeRow st tss = Except.ok out) ↔ ∃ t ∈ st, t.type = tss.type := by
  unfold typeRow
  cases hfind : st.find? (fun item => item.type == tss.type) with
  | none =>
    simp only [reduceCtorEq, exists_false, false_iff]
    intro ⟨t, ht, heq⟩
    have := List.find?_eq_none.mp hfind t ht
    simp [heq] at this
  | some t =>
    have hmem := List.mem_of_find?_eq_some hfind
    have hp := List.find?_some hfind
    simp only [beq_iff_eq] at hp
    constructor
    · intro _
      exact ⟨t, hmem, hp⟩
    · intro _
      exact ⟨_, rfl⟩

theorem languageSection_ok_iff (st : List SourceSchemaType)
    (li : List LanguageImplementation) (lang : String) :
    (∃ out, languageSection st li lang = Except.ok out) ↔
      ∃ impl, li.find? (fun item => item.language == lang) = some impl ∧
        ∀ tss ∈ impl.typeSupportStatuses, ∃ t ∈ st, t.type = tss.type := by
  unfold languageSection
  cases hfind : li.find? (fun item => item.language == lang) with
  | none =>
    simp only [reduceCtorEq, exists_false, false_iff]
    intro ⟨impl, himpl, _⟩
    exact absurd himpl (by simp)
  | some impl =>
    dsimp only
    cases hm : impl.typeSupportStatuses.mapM (typeRow st) with
    | error e =>
      dsimp only
      simp only [reduceCtorEq, exists_false, false_iff]
      intro ⟨impl', himpl', hall⟩
      have himpl2 : impl' = impl := by
        have := himpl'.symm
        simpa using this
      rw [himpl2] at hall
      obtain ⟨rows, hrows⟩ := (mapM_except_ok_iff (typeRow st) impl.typeSupportStatuses).mpr
        (fun tss htss => (typeRow_ok_iff st tss).mpr (hall tss htss))
      rw [hm] at hrows
      exact absurd hrows (by simp)
    | ok rows =>
      dsimp only
      constructor
      · intro _
        refine ⟨impl, rfl, ?_⟩
        intro tss htss
        exact (typeRow_ok_iff st tss).mp
          (((mapM_except_ok_iff (typeRow st) impl.typeSupportStatuses).mp ⟨rows, hm⟩) tss htss)
      · intro _
        exact ⟨_, rfl⟩

/-- C6: `generateLanguageImplementationStatus` fails fast by throwing (returning
an error and producing no output) in exactly these cases: the language
implementation records report problem messages; some known language has no
implementation record; or some type support status of a found record references
a type name absent from the source schema.  Otherwise it returns the rendered
markdown without throwing. -/
theorem genLangStatus_ok_iff (kl : List String) (st : List SourceSchemaType)
    (ms : List String) (li : List LanguageImplementation) :
    (∃ out, generateLanguageImplementationStatus kl st ms li = Except.ok out) ↔
      (ms = [] ∧ ∀ lang ∈ kl, ∃ impl,
        li.find? (fun item => item.language == lang) = some impl ∧
        ∀ tss ∈ impl.typeSupportStatuses, ∃ t ∈ st, t.type = tss.type) := by
  unfold generateLanguageImplementationStatus
  by_cases hms : ms.length > 0
  · have hne : ms ≠ [] := by
      intro h
      rw [h] at hms
      simp at hms
    simp only [hms, if_true, reduceCtorEq, exists_false, false_iff]
    intro ⟨h, _⟩
    exact hne h
  · have hms0 : ms = [] := List.length_eq_zero.mp (by omega)
    subst hms0
    rw [if_neg (by simp)]
    rw [show (([] : List String) = []) ∧
        (∀ lang ∈ kl, ∃ impl, li.find? (fun item => item.language == lang) = some impl ∧
          ∀ tss ∈ impl.typeSupportStatuses, ∃ t ∈ st, t.type = tss.type) ↔
        (∀ lang ∈ kl, ∃ impl, li.find? (fun item => item.language == lang) = some impl ∧
          ∀ tss ∈ impl.typeSupportStatuses, ∃ t ∈ st, t.type = tss.type) from
      ⟨fun h => h.2, fun h => ⟨rfl, h⟩⟩]
    cases hm : kl.mapM (languageSection st li) with
    | error e =>
      dsimp only
      simp only [reduceCtorEq, exists_false, false_iff]
      intro hall
      obtain ⟨out, hout⟩ := (mapM_except_ok_iff (languageSection st li) kl).mpr
        (fun lang hlang => (languageSection_ok_iff st li lang).mpr (hall lang hlang))
      rw [hm] at hout
      exact absurd hout (by simp)
    | ok sections =>
      dsimp only
      constructor
      · intro _ lang hlang
        exact (languageSection_ok_iff st li lang).mp
          (((mapM_except_ok_iff (languageSection st li) kl).mp ⟨sections, hm⟩) lang hlang)
      · intro _
        exact ⟨_, rfl⟩

theorem lexLe_total : ∀ (a b : List Char), lexLe a b = true ∨ lexLe b a = true := by
  intro a
  induction a with
  | nil => intro b; exact Or.inl rfl
  | cons x xs ih =>
    intro b
    cases b with
    | nil => exact Or.inr rfl
    | cons y ys =>
      by_cases hxy : x = y
      · subst hxy
        simp only [lexLe, if_pos rfl]
        exact ih ys
      · rcases lt_or_gt_of_ne hxy with hlt | hgt
        · exact Or.inl (by simp [lexLe, hxy, hlt])
        · refine Or.inr ?_
          rw [lexLe, if_neg (fun h => hxy (Eq.symm h))]
          simpa using hgt

theorem lexLe_trans : ∀ (a b c : List Char),
    lexLe a b = true → lexLe b c = true → lexLe a c = true := by
  intro a
  induction a with
  | nil => intro b c _ _; rfl
  | cons x xs ih =>
    intro b c h1 h2
    cases b with
    | nil => simp [lexLe] at h1
    | cons y ys =>
      cases c with
      | nil => simp [lexLe] at h2
      | cons z zs =>
        by_cases hxy : x = y
        · subst hxy
          rw [lexLe, if_pos rfl] at h1
          by_cases hyz : x = z
          · subst hyz
            rw [lexLe, if_pos rfl] at h2 ⊢
            exact ih ys zs h1 h2
          · rw [lexLe, if_neg hyz] at h2 ⊢
            exact h2
        · rw [lexLe, if_neg hxy] at h1
          have hxylt : x < y := by simpa using h1
          by_cases hyz : y = z
          · subst hyz
            rw [lexLe, if_neg hxy]
            simpa using hxylt
          · rw [lexLe, if_neg hyz] at h2
            have hyzlt : y < z := by simpa using h2
            have hxz : x < z := lt_trans hxylt hyzlt
            rw [lexLe, if_neg (ne_of_lt hxz)]
            simpa using hxz

theorem strLe_total (a b : String) : (strLe a b || strLe b a) = true := by
  rcases lexLe_total a.data b.data with h | h
  · simp [strLe, h]
  · simp [strLe, h]

theorem strLe_trans (a b c : String) (h1 : strLe a b = true) (h2 : strLe b c = true) :
    strLe a c = true :=
  lexLe_trans a.data b.data c.data h1 h2

/-- C7: `generateTypesDocumentation` renders every type of the schema exactly
once (the stable and experimental lists together are a permutation of the
schema's type list), partitioned into a Stable Types section followed by an
Experimental Types section (the latter emitted only when at least one
experimental type exists), and within each section the types appear in
ascending type-name order (localeCompare modelled as code-point order). -/
theorem genTypes_structure (st : List SourceSchemaType) (iT iP : String → Bool) :
    (stableTypesOf st iT ++ experimentalTypesOf st iT).Perm st ∧
    (∀ t ∈ stableTypesOf st iT, iT t.type = false) ∧
    (∀ t ∈ experimentalTypesOf st iT, iT t.type = true) ∧
    List.Pairwise (fun a b => strLe a.type b.type = true) (stableTypesOf st iT) ∧
    List.Pairwise (fun a b => strLe a.type b.type = true) (experimentalTypesOf st iT) ∧
    generateTypesDocumentation st iT iP =
      String.mk (jsTrimEnd
        ("## Stable Types\n\n" ++
         String.join ((stableTypesOf st iT).map (writeType st iP)) ++
         (if (experimentalTypesOf st iT).length > 0 then
            "## Experimental Types\n\n" ++
            "> **Warning:** Experimental types are subject to breaking changes.\n\n" ++
            String.join ((experimentalTypesOf st iT).map (writeType st iP))
          else "")).data) := by
  have hsorted : List.Pairwise (fun a b : SourceSchemaType => strLe a.type b.type = true)
      (sortTypes st) :=
    List.sorted_mergeSort (fun a b c => strLe_trans a.type b.type c.type)
      (fun a b => strLe_total a.type b.type) st
  refine ⟨?_, ?_, ?_, ?_, ?_, rfl⟩
  · have h1 := List.filter_append_perm (fun t : SourceSchemaType => !(iT t.type)) (sortTypes st)
    have h2 : (sortTypes st).filter (fun t => !!(iT t.type)) =
        (sortTypes st).filter (fun t => iT t.type) := by
      apply List.filter_congr
      intro t _
      simp
    rw [h2] at h1
    exact h1.trans (List.mergeSort_perm st _)
  · intro t ht
    have := (List.mem_filter.mp ht).2
    simpa using this
  · intro t ht
    exact (List.mem_filter.mp ht).2
  · exact List.Pairwise.sublist (List.filter_sublist _) hsorted
  · exact List.Pairwise.sublist (List.filter_sublist _) hsorted

/-- C8: in the language implementation status table, for every type support
status the rendered per-item details are: for a non-enum type one entry per
property in the type's sorted property order, for an enum type one entry per
enum value in the type's sorted enum-value order; each entry's status equals the
status of the matching override when one exists (the first matching override,
and such an override is then a member of the override list with the matching
name), and otherwise equals the type's overall status. -/
theorem supportStatusDetails_spec (stype : SourceSchemaType) (tss : TypeSupportStatus) :
    (stype.isEnumType = false →
      supportStatusDetails stype tss = stype.sortedProperties.map (fun p =>
        "• `" ++ p.property ++ "`: " ++ propStatusOf tss p.property ++ "<br>")) ∧
    (stype.isEnumType = true →
      supportStatusDetails stype tss = stype.sortedEnumValues.map (fun v =>
        "• `" ++ v ++ "`: " ++ enumStatusOf tss v ++ "<br>")) ∧
    (∀ pname : String,
      (∃ o ∈ tss.propertyOverrides, o.property = pname ∧ propStatusOf tss pname = o.status) ∨
      ((∀ o ∈ tss.propertyOverrides, o.property ≠ pname) ∧
        propStatusOf tss pname = tss.status)) ∧
    (∀ v : String,
      (∃ o ∈ tss.enumOverrides, o.enumValue = v ∧ enumStatusOf tss v = o.status) ∨
      ((∀ o ∈ tss.enumOverrides, o.enumValue ≠ v) ∧ enumStatusOf tss v = tss.status)) := by
  refine ⟨?_, ?_, ?_, ?_⟩
  · intro h
    rw [supportStatusDetails, h]
    rfl
  · intro h
    rw [supportStatusDetails, h]
    rfl
  · intro pname
    rw [propStatusOf]
    cases hfind : tss.propertyOverrides.find? (fun o => o.property == pname) with
    | some o =>
      refine Or.inl ⟨o, List.mem_of_find?_eq_some hfind, ?_, rfl⟩
      have := List.find?_some hfind
      simpa using this
    | none =>
      refine Or.inr ⟨?_, rfl⟩
      intro o ho
      have := List.find?_eq_none.mp hfind o ho
      simpa using this
  · intro v
    rw [enumStatusOf]
    cases hfind : tss.enumOverrides.find? (fun o => o.enumValue == v) with
    | some o =>
      refine Or.inl ⟨o, List.mem_of_find?_eq_some hfind, ?_, rfl⟩
      have := List.find?_some hfind
      simpa using this
    | none =>
      refine Or.inr ⟨?_, rfl⟩
      intro o ho
      have := List.find?_eq_none.mp hfind o ho
      simpa using this

theorem matchMarker_nil (kw pref mid : String) : matchMarker kw pref mid [] = none := by
  rw [matchMarker, markerHead_eq_cons]
  rfl

theorem suffix_eq_drop {r s : List Char} (h : r <:+ s) : r = s.drop (s.length - r.length) := by
  obtain ⟨p, hp⟩ := h
  subst hp
  simp

theorem matchPatternAt_drop {pref mid : String} {s r : List Char}
    (h : matchPatternAt pref mid s = some r) : r = s.drop (s.length - r.length) :=
  suffix_eq_drop (matchPatternAt_suffix h)

theorem findEndFrom_exists {pref mid : String} :
    ∀ {s r : List Char}, findEndFrom pref mid s = some r →
      ∃ i, i ≤ s.length ∧ matchMarker "END" pref mid (s.drop i) = some r := by
  intro s
  induction s with
  | nil =>
    intro r h
    exact ⟨0, Nat.le_refl _, h⟩
  | cons c t ih =>
    intro r h
    rw [findEndFrom] at h
    split at h
    next r' heq =>
      cases h
      exact ⟨0, Nat.zero_le _, heq⟩
    next heq =>
      obtain ⟨i, hi, hm⟩ := ih h
      exact ⟨i + 1, by simpa using hi, by simpa using hm⟩

theorem matchPatternAt_end_exists {pref mid : String} {s r : List Char}
    (h : matchPatternAt pref mid s = some r) :
    ∃ e, e ≤ s.length ∧ matchMarker "END" pref mid (s.drop e) = some r := by
  obtain ⟨s1, h1, h2⟩ := Option.bind_eq_some.mp h
  obtain ⟨i, hi, hm⟩ := findEndFrom_exists h2
  have hsuf : s1 <:+ s := matchMarker_suffix h1
  have hdrop : s1 = s.drop (s.length - s1.length) := suffix_eq_drop hsuf
  refine ⟨s.length - s1.length + i, ?_, ?_⟩
  · have := hsuf.length_le
    omega
  · rw [← List.drop_drop, ← hdrop]
    exact hm

theorem findEndFrom_of_exists {pref mid : String} :
    ∀ (s : List Char) (i : Nat) {r : List Char},
      matchMarker "END" pref mid (s.drop i) = some r → ∃ r', findEndFrom pref mid s = some r' := by
  intro s
  induction s with
  | nil =>
    intro i r h
    rw [List.drop_nil] at h
    exact absurd h (by simp [matchMarker_nil])
  | cons c t ih =>
    intro i r h
    cases i with
    | zero =>
      rw [List.drop_zero] at h
      exact ⟨r, by rw [findEndFrom, h]⟩
    | succ j =>
      rw [List.drop_succ_cons] at h
      rw [findEndFrom]
      cases hh : matchMarker "END" pref mid (c :: t) with
      | some r0 => exact ⟨r0, rfl⟩
      | none =>
        obtain ⟨r', hr'⟩ := ih j h
        exact ⟨r', hr'⟩

theorem matchLit_none_extend : ∀ {lit x : List Char} (y : List Char),
    lit.length ≤ x.length → matchLit lit x = none → matchLit lit (x ++ y) = none := by
  intro lit
  induction lit with
  | nil =>
    intro x y _ h
    simp [matchLit] at h
  | cons c cs ih =>
    intro x y hlen h
    cases x with
    | nil => simp at hlen
    | cons d ds =>
      rw [List.cons_append]
      rw [matchLit] at h ⊢
      split at h
      · next heq => rw [if_pos heq]; exact ih y (by simpa using hlen) h
      · next hne => rw [if_neg hne]

theorem matchLit_cons_shape {c : Char} {lit s r : List Char}
    (h : matchLit (c :: lit) s = some r) : ∃ t, s = c :: t := by
  cases s with
  | nil => simp [matchLit] at h
  | cons d ds =>
    rw [matchLit] at h
    split at h
    · next heq => exact ⟨ds, by rw [heq]⟩
    · exact absurd h (by simp)

theorem noStraddleOccur_spec {pat ext : List Char} :
    ∀ {m : List Char}, noStraddleOccur pat ext m = true →
      ∀ i, i < m.length → matchLit pat (m.drop i ++ ext) = none := by
  intro m
  induction m with
  | nil => intro _ i hi; simp at hi
  | cons c t ih =>
    intro h i hi
    rw [noStraddleOccur, Bool.and_eq_true] at h
    cases i with
    | zero =>
      rw [List.drop_zero]
      have := h.1
      rw [Option.isNone_iff_eq_none] at this
      exact this
    | succ j =>
      rw [List.drop_succ_cons]
      exact ih h.2 j (by simpa using hi)

theorem ChainedMatches.le_of_mem {hi lo : Nat} :
    ∀ {ms : List (Nat × Nat)}, ChainedMatches hi lo ms → ∀ m ∈ ms, lo ≤ m.1 := by
  intro ms
  induction ms generalizing lo with
  | nil => intro _ m hm; simp at hm
  | cons m0 rest ih =>
    intro h m hm
    cases h with
    | cons _ _ _ _ h1 h2 h3 h4 =>
      rcases List.mem_cons.mp hm with hm | hm
      · rw [hm]; exact h1
      · exact Nat.le_trans (by omega) (ih h4 m hm)

theorem dropWhile_append_not {p : Char → Bool} {x : Char} (hx : p x = false) :
    ∀ (l r : List Char), (l ++ x :: r).dropWhile p = l.dropWhile p ++ x :: r := by
  intro l
  induction l with
  | nil => intro r; simp [List.dropWhile_cons, hx]
  | cons d t ih =>
    intro r
    rw [List.cons_append, List.dropWhile_cons, List.dropWhile_cons]
    cases hd : p d with
    | true => simpa using ih r
    | false => simp

theorem matchLit_boundary {lit : List Char} (hlit : '<' ∉ lit) :
    ∀ (a w1 w2 : List Char),
      (matchLit lit (a ++ '<' :: w1) = none ∧ matchLit lit (a ++ '<' :: w2) = none) ∨
      (∃ a2, matchLit lit (a ++ '<' :: w1) = some (a2 ++ '<' :: w1) ∧
             matchLit lit (a ++ '<' :: w2) = some (a2 ++ '<' :: w2)) := by
  induction lit with
  | nil => intro a w1 w2; exact Or.inr ⟨a, rfl, rfl⟩
  | cons c cs ih =>
    intro a w1 w2
    have hc : c ≠ '<' := fun h => hlit (by rw [h]; exact List.mem_cons_self _ _)
    have hcs : '<' ∉ cs := fun h => hlit (List.mem_cons_of_mem _ h)
    cases a with
    | nil =>
      refine Or.inl ⟨?_, ?_⟩ <;>
        · rw [List.nil_append, matchLit, if_neg hc]
    | cons d a' =>
      by_cases hcd : c = d
      · rcases ih hcs a' w1 w2 with ⟨h1, h2⟩ | ⟨a2, h1, h2⟩
        · refine Or.inl ⟨?_, ?_⟩
          · rw [List.cons_append, matchLit, if_pos hcd]; exact h1
          · rw [List.cons_append, matchLit, if_pos hcd]; exact h2
        · refine Or.inr ⟨a2, ?_, ?_⟩
          · rw [List.cons_append, matchLit, if_pos hcd]; exact h1
          · rw [List.cons_append, matchLit, if_pos hcd]; exact h2
      · refine Or.inl ⟨?_, ?_⟩ <;>
          · rw [List.cons_append, matchLit, if_neg hcd]

theorem matchWsPlus_boundary (a w1 w2 : List Char) :
    (matchWsPlus (a ++ '<' :: w1) = none ∧ matchWsPlus (a ++ '<' :: w2) = none) ∨
    (∃ a2, matchWsPlus (a ++ '<' :: w1) = some (a2 ++ '<' :: w1) ∧
           matchWsPlus (a ++ '<' :: w2) = some (a2 ++ '<' :: w2)) := by
  have hlt : jsWhitespace '<' = false := by decide
  cases a with
  | nil =>
    refine Or.inl ⟨?_, ?_⟩ <;>
      · rw [List.nil_append, matchWsPlus]
        simp [hlt]
  | cons d a' =>
    cases hd : jsWhitespace d with
    | false =>
      refine Or.inl ⟨?_, ?_⟩ <;>
        · rw [List.cons_append, matchWsPlus]
          simp [hd]
    | true =>
      refine Or.inr ⟨a'.dropWhile jsWhitespace, ?_, ?_⟩ <;>
        · rw [List.cons_append, matchWsPlus]
          simp only [hd, if_true]
          rw [dropWhile_append_not hlt]

theorem matchWordDashPlus_boundary (a w1 w2 : List Char) :
    (matchWordDashPlus (a ++ '<' :: w1) = none ∧ matchWordDashPlus (a ++ '<' :: w2) = none) ∨
    (∃ a2, matchWordDashPlus (a ++ '<' :: w1) = some (a2 ++ '<' :: w1) ∧
           matchWordDashPlus (a ++ '<' :: w2) = some (a2 ++ '<' :: w2)) := by
  have hlt : jsWordDash '<' = false := by decide
  cases a with
  | nil =>
    refine Or.inl ⟨?_, ?_⟩ <;>
      · rw [List.nil_append, matchWordDashPlus]
        simp [hlt]
  | cons d a' =>
    cases hd : jsWordDash d with
    | false =>
      refine Or.inl ⟨?_, ?_⟩ <;>
        · rw [List.cons_append, matchWordDashPlus]
          simp [hd]
    | true =>
      refine Or.inr ⟨a'.dropWhile jsWordDash, ?_, ?_⟩ <;>
        · rw [List.cons_append, matchWordDashPlus]
          simp only [hd, if_true]
          rw [dropWhile_append_not hlt]

theorem matchTail_boundary : ∀ (a w1 w2 : List Char),
    (matchTail (a ++ '<' :: w1) = none ∧ matchTail (a ++ '<' :: w2) = none) ∨
    (∃ a2, matchTail (a ++ '<' :: w1) = some (a2 ++ '<' :: w1) ∧
           matchTail (a ++ '<' :: w2) = some (a2 ++ '<' :: w2)) := by
  intro a w1 w2
  have hsrc : '<' ∉ "SOURCE:".data := by decide
  have harr : '<' ∉ " -->".data := by decide
  have hfb := matchLit_boundary harr a w1 w2
  rw [matchTail, matchTail]
  rcases matchWsPlus_boundary a w1 w2 with ⟨hn1, hn2⟩ | ⟨a2, hs1, hs2⟩
  · rw [hn1, hn2]
    dsimp only [Option.none_bind]
    rcases hfb with ⟨f1, f2⟩ | ⟨a9, f1, f2⟩
    · exact Or.inl ⟨f1, f2⟩
    · exact Or.inr ⟨a9, f1, f2⟩
  · rw [hs1, hs2]
    simp only [Option.some_bind]
    rcases matchLit_boundary hsrc a2 w1 w2 with ⟨hn1, hn2⟩ | ⟨a3, hs3, hs4⟩
    · rw [hn1, hn2]
      dsimp only [Option.none_bind]
      rcases hfb with ⟨f1, f2⟩ | ⟨a9, f1, f2⟩
      · exact Or.inl ⟨f1, f2⟩
      · exact Or.inr ⟨a9, f1, f2⟩
    · rw [hs3, hs4]
      simp only [Option.some_bind]
      rcases matchWsPlus_boundary a3 w1 w2 with ⟨hn1, hn2⟩ | ⟨a4, hs5, hs6⟩
      · rw [hn1, hn2]
        dsimp only [Option.none_bind]
        rcases hfb with ⟨f1, f2⟩ | ⟨a9, f1, f2⟩
        · exact Or.inl ⟨f1, f2⟩
        · exact Or.inr ⟨a9, f1, f2⟩
      · rw [hs5, hs6]
        simp only [Option.some_bind]
        rcases matchWordDashPlus_boundary a4 w1 w2 with ⟨hn1, hn2⟩ | ⟨a5, hs7, hs8⟩
        · rw [hn1, hn2]
          dsimp only [Option.none_bind]
          rcases hfb with ⟨f1, f2⟩ | ⟨a9, f1, f2⟩
          · exact Or.inl ⟨f1, f2⟩
          · exact Or.inr ⟨a9, f1, f2⟩
        · rw [hs7, hs8]
          simp only [Option.some_bind]
          rcases matchLit_boundary harr a5 w1 w2 with ⟨hn1, hn2⟩ | ⟨a6, hs9, hs10⟩
          · rw [hn1, hn2]
            dsimp only
            rcases hfb with ⟨f1, f2⟩ | ⟨a9, f1, f2⟩
            · exact Or.inl ⟨f1, f2⟩
            · exact Or.inr ⟨a9, f1, f2⟩
          · rw [hs9, hs10]
            dsimp only
            exact Or.inr ⟨a6, rfl, rfl⟩

theorem matchMarker_boundary {kw pref mid : String} (hkw : '<' ∉ kw.data)
    (hpref : ∀ x ∈ pref.data, jsWordDash x = true)
    (hmid : ∀ x ∈ mid.data, jsWordDash x = true) :
    ∀ (a w1 w2 : List Char), a ≠ [] →
      (matchMarker kw pref mid (a ++ '<' :: w1) = none ∧
       matchMarker kw pref mid (a ++ '<' :: w2) = none) ∨
      (∃ a2, matchMarker kw pref mid (a ++ '<' :: w1) = some (a2 ++ '<' :: w1) ∧
             matchMarker kw pref mid (a ++ '<' :: w2) = some (a2 ++ '<' :: w2)) := by
  intro a w1 w2 ha
  have htl : '<' ∉ ("!-- " ++ kw ++ " " ++ pref ++ ": " ++ mid).data := by
    intro hmem
    simp only [String.data_append, List.mem_append] at hmem
    rcases hmem with ((((h | h) | h) | h) | h) | h
    · revert h; decide
    · exact hkw h
    · revert h; decide
    · exact absurd (hpref _ h) (by decide)
    · revert h; decide
    · exact absurd (hmid _ h) (by decide)
  rw [matchMarker, matchMarker, markerHead_eq_cons]
  cases a with
  | nil => exact absurd rfl ha
  | cons d a' =>
    by_cases hd : d = '<'
    · subst hd
      rw [List.cons_append, List.cons_append]
      simp only [matchLit, if_pos rfl]
      rcases matchLit_boundary htl a' w1 w2 with ⟨h1, h2⟩ | ⟨a2, h1, h2⟩
      · rw [h1, h2]
        exact Or.inl ⟨rfl, rfl⟩
      · rw [h1, h2]
        rcases matchTail_boundary a2 w1 w2 with ⟨t1, t2⟩ | ⟨a3, t1, t2⟩
        · exact Or.inl ⟨t1, t2⟩
        · exact Or.inr ⟨a3, t1, t2⟩
    · rw [List.cons_append, List.cons_append]
      simp only [matchLit, if_neg (fun h => hd (Eq.symm h))]
      exact Or.inl ⟨rfl, rfl⟩

theorem scanGo_none_of_all (pref mid : String) :
    ∀ (s : List Char) (pos : Nat),
      (∀ i, i < s.length → matchPatternAt pref mid (s.drop i) = none) →
      scanGo pref mid s pos 0 = [] := by
  intro s
  induction s with
  | nil => intro pos _; rfl
  | cons c t ih =>
    intro pos h
    have h0 : matchPatternAt pref mid (c :: t) = none := by
      have := h 0 (by simp)
      simpa using this
    rw [scanGo, h0]
    exact ih (pos + 1) (fun i hi => by
      have := h (i + 1) (by simpa using hi)
      simpa using this)

theorem scanGo_gap_ff (pref mid : String) :
    ∀ (a : List Char) (X : List Char) (p : Nat),
      (∀ i, i < a.length → matchPatternAt pref mid (a.drop i ++ X) = none) →
      scanGo pref mid (a ++ X) p 0 = scanGo pref mid X (p + a.length) 0 := by
  intro a
  induction a with
  | nil => intro X p _; simp
  | cons c a' ih =>
    intro X p h
    have h0 : matchPatternAt pref mid ((c :: a') ++ X) = none := by
      have := h 0 (by simp)
      simpa using this
    rw [List.cons_append, scanGo]
    rw [List.cons_append] at h0
    rw [h0]
    have := ih X (p + 1) (fun i hi => by
      have := h (i + 1) (by simpa using hi)
      simpa using this)
    rw [this]
    have e : p + 1 + a'.length = p + (c :: a').length := by simp [List.length_cons]; omega
    rw [e]

theorem scanGo_skip_ff (pref mid : String) :
    ∀ (a : List Char) (X : List Char) (p : Nat),
      scanGo pref mid (a ++ X) p a.length = scanGo pref mid X (p + a.length) 0 := by
  intro a
  induction a with
  | nil => intro X p; simp
  | cons c a' ih =>
    intro X p
    rw [List.cons_append, List.length_cons, scanGo]
    rw [ih X (p + 1)]
    have e : p + 1 + a'.length = p + (a'.length + 1) := by omega
    rw [e]

theorem scanGo_fill (pref mid : String) {f X : List Char} (p : Nat) (hf : f ≠ [])
    (h : matchPatternAt pref mid (f ++ X) = some X) :
    scanGo pref mid (f ++ X) p 0 = (p, f.length) :: scanGo pref mid X (p + f.length) 0 := by
  cases f with
  | nil => exact absurd rfl hf
  | cons c f' =>
    rw [List.cons_append]
    rw [List.cons_append] at h
    rw [scanGo, h]
    dsimp only
    have hlen : (c :: (f' ++ X)).length - X.length = (c :: f').length := by
      simp [List.length_cons, List.length_append]
      omega
    rw [hlen]
    have hskip : (c :: f').length - 1 = f'.length := by simp
    rw [hskip]
    rw [scanGo_skip_ff pref mid f' X (p + 1)]
    have e : p + 1 + f'.length = p + (c :: f').length := by simp [List.length_cons]; omega
    rw [e]

theorem testPattern_drop {pref mid : String} :
    ∀ (s : List Char) (i : Nat) {r : List Char},
      matchPatternAt pref mid (s.drop i) = some r → testPattern pref mid s = true := by
  intro s
  induction s with
  | nil =>
    intro i r h
    rw [List.drop_nil] at h
    simp [testPattern, h]
  | cons c t ih =>
    intro i r h
    cases i with
    | zero =>
      rw [List.drop_zero] at h
      exact testPattern_of_matchPatternAt h
    | succ j =>
      rw [List.drop_succ_cons] at h
      have ht := ih j h
      rw [testPattern, ht]
      simp

theorem findEndFrom_append_skip (pref mid : String) :
    ∀ (m : List Char) (rest : List Char),
      (∀ i, i < m.length → matchMarker "END" pref mid (m.drop i ++ rest) = none) →
      findEndFrom pref mid (m ++ rest) = findEndFrom pref mid rest := by
  intro m
  induction m with
  | nil => intro rest _; simp
  | cons c m' ih =>
    intro rest h
    have h0 : matchMarker "END" pref mid ((c :: m') ++ rest) = none := by
      have := h 0 (by simp)
      simpa using this
    rw [List.cons_append] at h0 ⊢
    rw [findEndFrom, h0]
    exact ih rest (fun i hi => by
      have := h (i + 1) (by simpa using hi)
      simpa using this)

theorem scanGo_spec (pref mid : String) :
    ∀ (s orig : List Char) (pos skip : Nat), orig.drop pos = s →
      (∀ m ∈ scanGo pref mid s pos skip,
        matchPatternAt pref mid (orig.drop m.1) = some (orig.drop (m.1 + m.2))) ∧
      (∀ q, pos + skip ≤ q → q < pos + s.length →
        ¬ coveredBy (scanGo pref mid s pos skip) q →
        matchPatternAt pref mid (orig.drop q) = none) := by
  intro s
  induction s with
  | nil =>
    intro orig pos skip _
    refine ⟨fun m hm => absurd hm (by simp [scanGo]), fun q h1 h2 _ => ?_⟩
    simp at h2
    omega
  | cons c t ih =>
    intro orig pos skip hdrop
    have hdropt : orig.drop (pos + 1) = t := by
      have h1 := List.drop_drop 1 pos orig
      rw [hdrop] at h1
      simpa using h1.symm
    cases skip with
    | succ k =>
      have hs : scanGo pref mid (c :: t) pos (k + 1) = scanGo pref mid t (pos + 1) k := rfl
      rw [hs]
      obtain ⟨IH1, IH2⟩ := ih orig (pos + 1) k hdropt
      refine ⟨IH1, fun q h1 h2 hnc => IH2 q (by omega) ?_ hnc⟩
      simp only [List.length_cons] at h2
      omega
    | zero =>
      cases hm : matchPatternAt pref mid (c :: t) with
      | none =>
        have hs : scanGo pref mid (c :: t) pos 0 = scanGo pref mid t (pos + 1) 0 := by
          rw [scanGo, hm]
        rw [hs]
        obtain ⟨IH1, IH2⟩ := ih orig (pos + 1) 0 hdropt
        refine ⟨IH1, fun q h1 h2 hnc => ?_⟩
        rcases Nat.eq_or_lt_of_le (by omega : pos ≤ q) with hq | hq
        · rw [← hq, hdrop]
          exact hm
        · refine IH2 q (by omega) ?_ hnc
          simp only [List.length_cons] at h2
          omega
      | some r =>
        have hL1 : r.length < (c :: t).length := matchPatternAt_length_lt hm
        have hs : scanGo pref mid (c :: t) pos 0 =
            (pos, (c :: t).length - r.length) ::
              scanGo pref mid t (pos + 1) ((c :: t).length - r.length - 1) := by
          rw [scanGo, hm]
        rw [hs]
        obtain ⟨IH1, IH2⟩ := ih orig (pos + 1) ((c :: t).length - r.length - 1) hdropt
        constructor
        · intro m hmem
          rcases List.mem_cons.mp hmem with hmem | hmem
          · rw [hmem]
            simp only
            rw [hdrop, hm]
            have hr : r = (c :: t).drop ((c :: t).length - r.length) := matchPatternAt_drop hm
            have hdd : orig.drop (pos + ((c :: t).length - r.length)) =
                (c :: t).drop ((c :: t).length - r.length) := by
              have := List.drop_drop ((c :: t).length - r.length) pos orig
              rw [hdrop] at this
              exact this.symm
            rw [hdd, ← hr]
          · exact IH1 m hmem
        · intro q h1 h2 hnc
          have hq1 : ¬ (pos ≤ q ∧ q < pos + ((c :: t).length - r.length)) := by
            intro hh
            exact hnc ⟨(pos, (c :: t).length - r.length), List.mem_cons_self _ _, hh.1, hh.2⟩
          have hq2 : pos + ((c :: t).length - r.length) ≤ q := by omega
          refine IH2 q (by omega) ?_ ?_
          · simp only [List.length_cons] at h2
            omega
          · intro hcov
            obtain ⟨m, hm', hcc⟩ := hcov
            exact hnc ⟨m, List.mem_cons_of_mem _ hm', hcc⟩

theorem matchMarker_canonical_fst (u : DocUpdater) (mid : String)
    (hsrc1 : u.source.data ≠ []) (hsrc2 : ∀ x ∈ u.source.data, jsWordDash x = true)
    (r : List Char) :
    matchMarker "BEGIN" u.markerPref mid (((u.getMarkerPattern mid).1).data ++ r) = some r := by
  rw [getMarkerPattern_fst_data]
  exact matchMarker_variant "BEGIN" u.markerPref mid true " " " " u.source r
    (by decide) (by decide) (by decide) (by decide) hsrc1 hsrc2

theorem matchMarker_canonical_snd (u : DocUpdater) (mid : String)
    (hsrc1 : u.source.data ≠ []) (hsrc2 : ∀ x ∈ u.source.data, jsWordDash x = true)
    (r : List Char) :
    matchMarker "END" u.markerPref mid (((u.getMarkerPattern mid).2).data ++ r) = some r := by
  rw [getMarkerPattern_snd_data]
  exact matchMarker_variant "END" u.markerPref mid true " " " " u.source r
    (by decide) (by decide) (by decide) (by decide) hsrc1 hsrc2

theorem replacementString_data (u : DocUpdater) (mid n : String) :
    (replacementString u mid n).data =
      ((u.getMarkerPattern mid).1).data ++
        (('\n' :: n.data ++ ['\n']) ++ ((u.getMarkerPattern mid).2).data) := by
  simp [replacementString, String.data_append, List.append_assoc]

theorem markerHead_length_lt_snd (u : DocUpdater) (mid : String) :
    (markerHead "END" u.markerPref mid).length < (((u.getMarkerPattern mid).2).data).length := by
  rw [getMarkerPattern_snd_data, markerVariant, if_pos rfl]
  simp [List.length_append]

theorem getMarkerPattern_fst_cons (u : DocUpdater) (mid : String) :
    ∃ t, ((u.getMarkerPattern mid).1).data = '<' :: t := by
  rw [getMarkerPattern_fst_data]
  exact ⟨_, markerVariant_cons "BEGIN" u.markerPref mid true " " " " u.source⟩

theorem getMarkerPattern_snd_cons (u : DocUpdater) (mid : String) :
    ∃ t, ((u.getMarkerPattern mid).2).data = '<' :: t := by
  rw [getMarkerPattern_snd_data]
  exact ⟨_, markerVariant_cons "END" u.markerPref mid true " " " " u.source⟩

theorem matchPatternAt_head_lt {pref mid : String} {s r : List Char}
    (h : matchPatternAt pref mid s = some r) : ∃ t, s = '<' :: t := by
  obtain ⟨s1, h1, _⟩ := Option.bind_eq_some.mp h
  obtain ⟨s2, h2, _⟩ := Option.bind_eq_some.mp h1
  rw [markerHead_eq_cons] at h2
  exact matchLit_cons_shape h2

theorem matchPatternAt_fill (u : DocUpdater) (mid newContent : String)
    (hsrc1 : u.source.data ≠ []) (hsrc2 : ∀ x ∈ u.source.data, jsWordDash x = true)
    (hE : noStraddleOccur (markerHead "END" u.markerPref mid)
        (((u.getMarkerPattern mid).2).data) ('\n' :: newContent.data ++ ['\n']) = true)
    (W : List Char) :
    matchPatternAt u.markerPref mid ((replacementString u mid newContent).data ++ W) =
      some W := by
  have e1 : (replacementString u mid newContent).data ++ W =
      ((u.getMarkerPattern mid).1).data ++
        (('\n' :: newContent.data ++ ['\n']) ++ (((u.getMarkerPattern mid).2).data ++ W)) := by
    rw [replacementString_data]
    simp [List.append_assoc]
  rw [e1, matchPatternAt]
  rw [matchMarker_canonical_fst u mid hsrc1 hsrc2]
  simp only [Option.some_bind]
  have hskip : findEndFrom u.markerPref mid
      (('\n' :: newContent.data ++ ['\n']) ++ (((u.getMarkerPattern mid).2).data ++ W)) =
      findEndFrom u.markerPref mid (((u.getMarkerPattern mid).2).data ++ W) := by
    apply findEndFrom_append_skip
    intro i hi
    have hlit : matchLit (markerHead "END" u.markerPref mid)
        (('\n' :: newContent.data ++ ['\n']).drop i ++ ((u.getMarkerPattern mid).2).data) =
        none := noStraddleOccur_spec hE i hi
    have hlen : (markerHead "END" u.markerPref mid).length ≤
        (('\n' :: newContent.data ++ ['\n']).drop i ++ ((u.getMarkerPattern mid).2).data).length := by
      have := markerHead_length_lt_snd u mid
      simp only [List.length_append]
      omega
    have hlit2 := matchLit_none_extend W hlen hlit
    rw [List.append_assoc] at hlit2
    rw [matchMarker, hlit2]
    rfl
  rw [hskip]
  obtain ⟨Et, hEt⟩ := getMarkerPattern_snd_cons u mid
  have hcan := matchMarker_canonical_snd u mid hsrc1 hsrc2 W
  rw [hEt, List.cons_append] at hcan
  rw [hEt, List.cons_append]
  exact findEndFrom_cons_some hcan

theorem matchPatternAt_boundary_none (pref mid : String)
    (hpref : ∀ x ∈ pref.data, jsWordDash x = true)
    (hmid : ∀ x ∈ mid.data, jsWordDash x = true)
    {a w1 w2 : List Char} (ha : a ≠ [])
    (horig : matchPatternAt pref mid (a ++ '<' :: w1) = none)
    (hex : ∃ i r0, matchMarker "END" pref mid (('<' :: w1).drop i) = some r0) :
    matchPatternAt pref mid (a ++ '<' :: w2) = none := by
  rcases matchMarker_boundary (by decide : '<' ∉ "BEGIN".data) hpref hmid a w1 w2 ha with
    ⟨h1, h2⟩ | ⟨a2, h1, h2⟩
  · rw [matchPatternAt, h2]
    rfl
  · exfalso
    obtain ⟨i, r0, hi⟩ := hex
    have hdropeq : (a2 ++ '<' :: w1).drop (a2.length + i) = ('<' :: w1).drop i := by
      have e := List.drop_drop i a2.length (a2 ++ '<' :: w1)
      rw [List.drop_left] at e
      exact e.symm
    obtain ⟨r', hr'⟩ := findEndFrom_of_exists (a2 ++ '<' :: w1) (a2.length + i)
      (by rw [hdropeq]; exact hi)
    have hsome : matchPatternAt pref mid (a ++ '<' :: w1) = some r' := by
      rw [matchPatternAt, h1]
      exact hr'
    rw [hsome] at horig
    exact absurd horig (by simp)

set_option maxHeartbeats 2000000 in
theorem rescan_literal (u : DocUpdater) (mid newContent : String)
    (hpref : ∀ x ∈ u.markerPref.data, jsWordDash x = true)
    (hmid : ∀ x ∈ mid.data, jsWordDash x = true)
    (hsrc1 : u.source.data ≠ []) (hsrc2 : ∀ x ∈ u.source.data, jsWordDash x = true)
    (hD : hasDollarEscape (replacementString u mid newContent).data = false)
    (hE : noStraddleOccur (markerHead "END" u.markerPref mid)
        (((u.getMarkerPattern mid).2).data) ('\n' :: newContent.data ++ ['\n']) = true)
    (orig : List Char) :
    ∀ (ms : List (Nat × Nat)) (lastEnd p0 : Nat) (out1tot : List Char),
      ChainedMatches orig.length lastEnd ms →
      (∀ m ∈ ms, matchPatternAt u.markerPref mid (orig.drop m.1) =
        some (orig.drop (m.1 + m.2))) →
      (∀ q, lastEnd ≤ q → q < orig.length → ¬ coveredBy ms q →
        matchPatternAt u.markerPref mid (orig.drop q) = none) →
      out1tot.drop p0 =
        buildLiteral orig (replacementString u mid newContent).data lastEnd ms →
      buildResult out1tot (replacementString u mid newContent).data p0
          (scanGo u.markerPref mid
            (buildLiteral orig (replacementString u mid newContent).data lastEnd ms) p0 0) =
        buildLiteral orig (replacementString u mid newContent).data lastEnd ms := by
  intro ms
  induction ms with
  | nil =>
    intro lastEnd p0 out1tot hch hW2 hW3 hp
    rw [buildLiteral] at hp ⊢
    have hscan : scanGo u.markerPref mid (orig.drop lastEnd) p0 0 = [] := by
      apply scanGo_none_of_all
      intro i hi
      have hdd : (orig.drop lastEnd).drop i = orig.drop (lastEnd + i) :=
        List.drop_drop i lastEnd orig
      rw [hdd]
      refine hW3 (lastEnd + i) (by omega) ?_ ?_
      · rw [List.length_drop] at hi
        omega
      · rintro ⟨m, hm, _⟩
        simp at hm
    rw [hscan, buildResult]
    exact hp
  | cons m rest ih =>
    intro lastEnd p0 out1tot hch hW2 hW3 hp
    obtain ⟨pos, len⟩ := m
    cases hch with
    | cons _ _ _ _ h1 h2 h3 h4 =>
    set repl := (replacementString u mid newContent).data with hrepl
    set seg := (orig.drop lastEnd).take (pos - lastEnd) with hseg
    set W' := buildLiteral orig repl (pos + len) rest with hWp
    have hBL : buildLiteral orig repl lastEnd ((pos, len) :: rest) = seg ++ (repl ++ W') := by
      rw [buildLiteral, List.append_assoc]
    have hseglen : seg.length = pos - lastEnd := by
      rw [hseg, List.length_take, List.length_drop]
      omega
    obtain ⟨rt, hrt⟩ : ∃ rt, repl = '<' :: rt := by
      obtain ⟨t, ht⟩ := getMarkerPattern_fst_cons u mid
      rw [hrepl, replacementString_data, ht]
      exact ⟨_, rfl⟩
    obtain ⟨w1, hw1⟩ : ∃ t, orig.drop pos = '<' :: t :=
      matchPatternAt_head_lt (hW2 (pos, len) (List.mem_cons_self _ _))
    have hgap : ∀ i, i < seg.length →
        matchPatternAt u.markerPref mid (seg.drop i ++ (repl ++ W')) = none := by
      intro i hi
      rw [hseglen] at hi
      have hipos : lastEnd + i < pos := by omega
      have e1 : seg.drop i = (orig.drop (lastEnd + i)).take (pos - (lastEnd + i)) := by
        rw [hseg, List.drop_take, List.drop_drop]
        congr 1
        omega
      have haorig : seg.drop i ++ orig.drop pos = orig.drop (lastEnd + i) := by
        rw [e1]
        exact take_append_drop_of_le orig (by omega)
      have hane : seg.drop i ≠ [] := by
        intro hnil
        have hl := congrArg List.length hnil
        rw [List.length_drop, hseglen] at hl
        simp at hl
        omega
      have horig : matchPatternAt u.markerPref mid (orig.drop (lastEnd + i)) = none := by
        refine hW3 (lastEnd + i) (by omega) (by omega) ?_
        rintro ⟨mm, hmm, hcc1, hcc2⟩
        rcases List.mem_cons.mp hmm with hmm | hmm
        · rw [hmm] at hcc1
          simp at hcc1
          omega
        · have := h4.le_of_mem mm hmm
          omega
      have horig' : matchPatternAt u.markerPref mid (seg.drop i ++ '<' :: w1) = none := by
        rw [show seg.drop i ++ '<' :: w1 = orig.drop (lastEnd + i) from by rw [← hw1, haorig]]
        exact horig
      have hex : ∃ i0 r0,
          matchMarker "END" u.markerPref mid (('<' :: w1).drop i0) = some r0 := by
        obtain ⟨e, he1, he2⟩ :=
          matchPatternAt_end_exists (hW2 (pos, len) (List.mem_cons_self _ _))
        rw [hw1] at he2
        exact ⟨e, _, he2⟩
      have hres := @matchPatternAt_boundary_none u.markerPref mid hpref hmid
        (seg.drop i) w1 (rt ++ W') hane horig' hex
      rw [hrt, List.cons_append]
      exact hres
    rw [hBL]
    rw [scanGo_gap_ff u.markerPref mid seg (repl ++ W') p0 hgap]
    have hfill : matchPatternAt u.markerPref mid (repl ++ W') = some W' :=
      matchPatternAt_fill u mid newContent hsrc1 hsrc2 hE W'
    have hrne : repl ≠ [] := by
      rw [hrt]
      exact List.cons_ne_nil _ _
    rw [scanGo_fill u.markerPref mid (p0 + seg.length) hrne hfill]
    rw [buildResult]
    have hdp0 : out1tot.drop p0 = seg ++ (repl ++ W') := by rw [hp, hBL]
    have htake : (out1tot.drop p0).take (p0 + seg.length - p0) = seg := by
      rw [hdp0, Nat.add_sub_cancel_left]
      exact List.take_left seg (repl ++ W')
    have hdrop2 : out1tot.drop (p0 + seg.length + repl.length) = W' := by
      have e := List.drop_drop (seg.length + repl.length) p0 out1tot
      have e2 : out1tot.drop (p0 + seg.length + repl.length) =
          (out1tot.drop p0).drop (seg.length + repl.length) := by
        rw [e]
        congr 1
        omega
      rw [e2, hdp0]
      rw [show seg ++ (repl ++ W') = (seg ++ repl) ++ W' from (List.append_assoc _ _ _).symm]
      rw [show seg.length + repl.length = (seg ++ repl).length from
        (List.length_append _ _).symm]
      exact List.drop_left _ _
    have hW2r : ∀ m ∈ rest, matchPatternAt u.markerPref mid (orig.drop m.1) =
        some (orig.drop (m.1 + m.2)) :=
      fun m hm => hW2 m (List.mem_cons_of_mem _ hm)
    have hW3r : ∀ q, pos + len ≤ q → q < orig.length → ¬ coveredBy rest q →
        matchPatternAt u.markerPref mid (orig.drop q) = none := by
      intro q hq1 hq2 hq3
      refine hW3 q (by omega) hq2 ?_
      rintro ⟨mm, hmm, hcc⟩
      rcases List.mem_cons.mp hmm with hmm | hmm
      · rw [hmm] at hcc
        simp at hcc
        omega
      · exact hq3 ⟨mm, hmm, hcc⟩
    have hIH := ih (pos + len) (p0 + seg.length + repl.length) out1tot h4 hW2r hW3r hdrop2
    rw [htake, hIH, getSubstitution_id _ _ _ repl hD]
    rw [List.append_assoc]

theorem matchPatternAt_nil (pref mid : String) : matchPatternAt pref mid [] = none := by
  rw [matchPatternAt, matchMarker_nil]
  rfl

theorem testPattern_exists {pref mid : String} :
    ∀ {s : List Char}, testPattern pref mid s = true →
      ∃ i r, matchPatternAt pref mid (s.drop i) = some r := by
  intro s
  induction s with
  | nil =>
    intro h
    rw [testPattern] at h
    obtain ⟨r, hr⟩ := Option.isSome_iff_exists.mp h
    exact ⟨0, r, hr⟩
  | cons c t ih =>
    intro h
    rw [testPattern] at h
    rcases (Bool.or_eq_true _ _).mp h with h | h
    · obtain ⟨r, hr⟩ := Option.isSome_iff_exists.mp h
      exact ⟨0, r, hr⟩
    · obtain ⟨i, r, hr⟩ := ih h
      exact ⟨i + 1, r, by simpa using hr⟩

theorem updateSection_eq_of_test (u : DocUpdater) (content mid newContent : String)
    (h : testPattern u.markerPref mid content.data = true) :
    u.updateSection content mid newContent =
      (String.mk (jsReplaceAll u.markerPref mid
        (replacementString u mid newContent).data content.data), true) := by
  rw [DocUpdater.updateSection, if_pos h]
  rfl

set_option maxHeartbeats 1000000 in
/-- C9 (amended): updateSection is idempotent on its own output provided the
replacement template is inert under the replace algorithm.  For an updater whose
markerPrefix and source are word-dash strings (source nonempty) and a word-dash
markerId, if the first application reports wasUpdated = true, the replacement
string contains none of the dollar escapes of GetSubstitution, and no END-marker
occurrence starts inside the newline-wrapped newContent (also straddling into
the trailing canonical end marker), then the second application returns the
first result unchanged together with wasUpdated = true.  The original claim,
which assumes only that newContent contains no end-marker match, is refuted by
the counterexample theorem: a dollar escape in newContent re-expands on the
second pass. -/
theorem updateSection_idempotent (u : DocUpdater) (content mid newContent : String)
    (hpref : ∀ x ∈ u.markerPref.data, jsWordDash x = true)
    (hmid : ∀ x ∈ mid.data, jsWordDash x = true)
    (hsrc1 : u.source.data ≠ []) (hsrc2 : ∀ x ∈ u.source.data, jsWordDash x = true)
    (hD : hasDollarEscape (replacementString u mid newContent).data = false)
    (hE : noStraddleOccur (markerHead "END" u.markerPref mid)
        (((u.getMarkerPattern mid).2).data) ('\n' :: newContent.data ++ ['\n']) = true)
    (hT : (u.updateSection content mid newContent).2 = true) :
    u.updateSection (u.updateSection content mid newContent).1 mid newContent =
      ((u.updateSection content mid newContent).1, true) := by
  have hTP : testPattern u.markerPref mid content.data = true := by
    by_contra hc
    rw [DocUpdater.updateSection, if_neg hc] at hT
    exact Bool.false_ne_true hT
  set repl := (replacementString u mid newContent).data with hrepl
  set ms := scanGo u.markerPref mid content.data 0 0 with hmsdef
  have hfirst := updateSection_eq_of_test u content mid newContent hTP
  have hch : ChainedMatches content.data.length 0 ms := by
    rw [hmsdef]
    have := scanGo_chained u.markerPref mid content.data 0 0
    simpa using this
  have hspec := scanGo_spec u.markerPref mid content.data content.data 0 0 (List.drop_zero _)
  have hW2 : ∀ m ∈ ms, matchPatternAt u.markerPref mid (content.data.drop m.1) =
      some (content.data.drop (m.1 + m.2)) := by
    rw [hmsdef]
    exact hspec.1
  have hW3 : ∀ q, 0 ≤ q → q < content.data.length → ¬ coveredBy ms q →
      matchPatternAt u.markerPref mid (content.data.drop q) = none := by
    rw [hmsdef]
    intro q hq1 hq2 hnc
    exact hspec.2 q (by omega) (by omega) hnc
  have hout1 : jsReplaceAll u.markerPref mid repl content.data =
      buildLiteral content.data repl 0 ms := by
    rw [jsReplaceAll, updateMatches, ← hmsdef]
    exact buildResult_eq_buildLiteral content.data repl hD ms 0
  have hmsne : ms ≠ [] := by
    intro hnil
    obtain ⟨i, r, hir⟩ := testPattern_exists hTP
    have hilt : i < content.data.length := by
      by_contra hge
      rw [List.drop_eq_nil_of_le (by omega)] at hir
      rw [matchPatternAt_nil] at hir
      exact absurd hir (by simp)
    have hnone := hW3 i (Nat.zero_le _) hilt (by rw [hnil]; rintro ⟨m, hm, _⟩; simp at hm)
    rw [hnone] at hir
    exact absurd hir (by simp)
  obtain ⟨pos, len, rest, hmscons⟩ : ∃ pos len rest, ms = (pos, len) :: rest := by
    cases hc : ms with
    | nil => exact absurd hc hmsne
    | cons a b => exact ⟨a.1, a.2, b, rfl⟩
  have hsplit : jsReplaceAll u.markerPref mid repl content.data =
      ((content.data.drop 0).take (pos - 0)) ++
        (repl ++ buildLiteral content.data repl (pos + len) rest) := by
    rw [hout1, hmscons, buildLiteral, List.append_assoc]
  have hdropseg : (jsReplaceAll u.markerPref mid repl content.data).drop
      ((content.data.drop 0).take (pos - 0)).length =
      repl ++ buildLiteral content.data repl (pos + len) rest := by
    rw [hsplit]
    exact List.drop_left _ _
  have hfill : matchPatternAt u.markerPref mid
      (repl ++ buildLiteral content.data repl (pos + len) rest) =
      some (buildLiteral content.data repl (pos + len) rest) := by
    rw [hrepl]
    exact matchPatternAt_fill u mid newContent hsrc1 hsrc2 hE _
  have htp2 : testPattern u.markerPref mid
      (jsReplaceAll u.markerPref mid repl content.data) = true := by
    apply testPattern_drop (jsReplaceAll u.markerPref mid repl content.data)
      ((content.data.drop 0).take (pos - 0)).length
    rw [hdropseg]
    exact hfill
  have hre : jsReplaceAll u.markerPref mid repl
      (jsReplaceAll u.markerPref mid repl content.data) =
      jsReplaceAll u.markerPref mid repl content.data := by
    rw [jsReplaceAll, updateMatches, hout1]
    exact rescan_literal u mid newContent hpref hmid hsrc1 hsrc2 hD hE content.data ms 0 0
      (buildLiteral content.data repl 0 ms) hch hW2 hW3 (List.drop_zero _)
  have hsecond := updateSection_eq_of_test u
    (String.mk (jsReplaceAll u.markerPref mid repl content.data)) mid newContent htp2
  have hds : (String.mk (jsReplaceAll u.markerPref mid repl content.data)).data =
      jsReplaceAll u.markerPref mid repl content.data := rfl
  rw [hds, ← hrepl, hre] at hsecond
  rw [hfirst]
  exact hsecond

set_option maxRecDepth 20000 in
/-- Witness for C9: a concrete updater, content with one tolerated marker pair,
and an escape-free newContent on which the amended idempotence theorem applies,
every hypothesis discharged by evaluation. -/
theorem updateSection_idempotent_witness :
    (DocUpdater.mk "G" "s").updateSection
        (((DocUpdater.mk "G" "s").updateSection
          "<!-- BEGIN G: m -->y<!-- END G: m -->" "m" "x").1) "m" "x" =
      ((((DocUpdater.mk "G" "s").updateSection
          "<!-- BEGIN G: m -->y<!-- END G: m -->" "m" "x").1), true) :=
  updateSection_idempotent (DocUpdater.mk "G" "s")
    "<!-- BEGIN G: m -->y<!-- END G: m -->" "m" "x"
    (by decide) (by decide) (by decide) (by decide) (by decide) (by decide) (by decide)

set_option maxRecDepth 20000 in
/-- Counterexample to C9 as stated: with newContent equal to the two characters
dollar-ampersand — which contains no substring matching the end-marker pattern,
as the claim requires — the first application succeeds, yet the second
application does not return the same content: GetSubstitution expands the
dollar-ampersand to the whole matched region on each pass, so the text keeps
growing. -/
theorem updateSection_second_pass_counterexample :
    ∃ (u : DocUpdater) (content mid newContent : String),
      findEndFrom u.markerPref mid newContent.data = none ∧
      (u.updateSection content mid newContent).2 = true ∧
      (u.updateSection (u.updateSection content mid newContent).1 mid newContent).1 ≠
        (u.updateSection content mid newContent).1 := by
  refine ⟨DocUpdater.mk "G" "s", "<!-- BEGIN G: m -->y<!-- END G: m -->", "m", "$&",
    by decide, by decide, by decide⟩
